import Mathlib

/-!
Verification development for the chessapp rules engine
(src/chesslib: pieces.rs, board.rs, board/bitboard.rs, castle.rs, lib.rs).

The Rust code is shallowly embedded: u64 bitboards become `Nat` with explicit
masking tsq 64 bits where overflow matters, `&mut self` methods become
state-passing functions returning the result together with the new state, and
`Result` becomes `Except`.  Three items are referenced by the sources but their
definitions are absent from the crate (`BitBoard::straight_ray`,
`BitBoard::diag_ray`, `BitBoard::contains`, and the `MailBox` module); those
are modelled from the specification and marked as such below.
-/

set_option maxHeartbeats 1000000
set_option maxRecDepth 4000

namespace Chess

/-- Color enum from pieces.rs. -/
inductive Color where
  | White
  | Black
deriving DecidableEq, Repr

/-- `impl Not for Color` from pieces.rs: `!color` flips the color. -/
def Color.not : Color → Color
  | .White => .Black
  | .Black => .White

instance : Fintype Color :=
  Fintype.ofList [Color.White, Color.Black] (by intro c; cases c <;> simp)

/-- Figure enum from pieces.rs. -/
inductive Figure where
  | Pawn
  | Rook
  | Knight
  | Bishop
  | Queen
  | King
deriving DecidableEq, Repr

instance : Fintype Figure :=
  Fintype.ofList
    [Figure.Pawn, Figure.Rook, Figure.Knight, Figure.Bishop, Figure.Queen, Figure.King]
    (by intro f; cases f <;> simp)

/-- Piece struct from pieces.rs: a (color, figure) pair. -/
structure Piece where
  color : Color
  figure : Figure
deriving DecidableEq, Repr

instance : Fintype Piece :=
  Fintype.ofList
    [⟨.White, .Pawn⟩, ⟨.White, .Rook⟩, ⟨.White, .Knight⟩, ⟨.White, .Bishop⟩,
      ⟨.White, .Queen⟩, ⟨.White, .King⟩, ⟨.Black, .Pawn⟩, ⟨.Black, .Rook⟩,
      ⟨.Black, .Knight⟩, ⟨.Black, .Bishop⟩, ⟨.Black, .Queen⟩, ⟨.Black, .King⟩]
    (by rintro ⟨c, f⟩; cases c <;> cases f <;> simp)

def WHITE_PAWN : Piece := ⟨.White, .Pawn⟩
def WHITE_ROOK : Piece := ⟨.White, .Rook⟩
def WHITE_KNIGHT : Piece := ⟨.White, .Knight⟩
def WHITE_BISHOP : Piece := ⟨.White, .Bishop⟩
def WHITE_QUEEN : Piece := ⟨.White, .Queen⟩
def WHITE_KING : Piece := ⟨.White, .King⟩
def BLACK_PAWN : Piece := ⟨.Black, .Pawn⟩
def BLACK_ROOK : Piece := ⟨.Black, .Rook⟩
def BLACK_KNIGHT : Piece := ⟨.Black, .Knight⟩
def BLACK_BISHOP : Piece := ⟨.Black, .Bishop⟩
def BLACK_QUEEN : Piece := ⟨.Black, .Queen⟩
def BLACK_KING : Piece := ⟨.Black, .King⟩

/-- `Piece::try_from(char)` from pieces.rs (error payload dropped). -/
def Piece.try_from (c : Char) : Option Piece :=
  match c with
  | 'P' => some WHITE_PAWN
  | 'R' => some WHITE_ROOK
  | 'N' => some WHITE_KNIGHT
  | 'B' => some WHITE_BISHOP
  | 'Q' => some WHITE_QUEEN
  | 'K' => some WHITE_KING
  | 'p' => some BLACK_PAWN
  | 'r' => some BLACK_ROOK
  | 'n' => some BLACK_KNIGHT
  | 'b' => some BLACK_BISHOP
  | 'q' => some BLACK_QUEEN
  | 'k' => some BLACK_KING
  | _ => none

/-- Square from board.rs: an index in [0,64), `square = 8*row + column`. -/
abbrev Square := Fin 64

/-- Column from board.rs: A..H as 0..7. -/
abbrev Column := Fin 8

/-- Row from board.rs: One..Eight as 0..7. -/
abbrev Row := Fin 8

/-- `Square::from_coords(col, row)`: `8 * row + col`. -/
def Square.from_coords (col : Column) (row : Row) : Square :=
  ⟨8 * row.val + col.val, by omega⟩

/-- `Square::col`: `self & 7`, i.e. the index modulo 8. -/
def Square.col (s : Square) : Column := ⟨s.val % 8, Nat.mod_lt _ (by omega)⟩

/-- `Square::row`: `self >> 3`, i.e. the index divided by 8. -/
def Square.row (s : Square) : Row := ⟨s.val / 8, by omega⟩

/-! Square constants used by the claims (board.rs `Square` enum, A1 = 0). -/

def sqA1 : Square := 0
def sqE1 : Square := 4
def sqF1 : Square := 5
def sqG1 : Square := 6
def sqH1 : Square := 7
def sqE2 : Square := 12
def sqB3 : Square := 17
def sqC3 : Square := 18
def sqE3 : Square := 20
def sqE4 : Square := 28
def sqA5 : Square := 32
def sqD5 : Square := 35
def sqE5 : Square := 36
def sqH5 : Square := 39
def sqD6 : Square := 43
def sqA8 : Square := 56
def sqE8 : Square := 60
def sqH8 : Square := 63

/-! ## BitBoard (board/bitboard.rs)

A `u64` whose bit `i` marks square `i`; embedded as a `Nat` together with
explicit 64-bit masking wherever the Rust `u64` arithmetic could overflow. -/

/-- The u64 value space bound. -/
def U64 : Nat := 2 ^ 64

abbrev BitBoard := Nat

namespace BitBoard

/-- `BitBoard::from_square`: `1 << s`. -/
def from_square (s : Square) : BitBoard := 1 <<< s.val

/-- `BitBoard::from_col`: `0x0101010101010101 << c`. -/
def from_col (c : Column) : BitBoard := 0x0101010101010101 <<< c.val

/-- `BitBoard::from_row`: `0xff << (8 * r)`. -/
def from_row (r : Row) : BitBoard := 0xff <<< (8 * r.val)

/-- `impl Not for BitBoard`: u64 complement, i.e. xor with `2^64 - 1`. -/
def bbNot (b : BitBoard) : BitBoard := (U64 - 1) ^^^ b

/-- `BitBoard::empty`: `self.0 == 0`. -/
def empty (b : BitBoard) : Bool := b == 0

/-- `BitBoard::count_squares`: `count_ones` of the 64-bit value. -/
def count_squares (b : BitBoard) : Nat :=
  ((List.finRange 64).filter (fun s => b.testBit s.val)).length

/-- Modelled from the spec (the `contains` method is used by board.rs but its
definition is absent from the crate sources): `contains(square)` tests
membership of a square in the bit-set. -/
def contains (b : BitBoard) (s : Square) : Bool := b.testBit s.val

/-- The squares of a bitboard in increasing bit-index order; this is the
sequence produced by `BitBoard::iter` (repeated `bitscan_forward` + clear). -/
def squaresOf (b : BitBoard) : List Square :=
  (List.finRange 64).filter (fun s => b.testBit s.val)

/-- `BitBoard::shift::<COLS, ROWS>` from bitboard.rs: lateral bits that would
wrap across the A/H edge are masked off before the raw 64-bit shift. -/
def shift (b : BitBoard) (cols rows : Int) : BitBoard :=
  if 8 ≤ rows.natAbs ∨ 8 ≤ cols.natAbs then 0
  else
    -- `0xffu16 >> COLS` / `(0xffu16 << -COLS) as u8`
    let col_mask : Nat :=
      if 0 < cols then 0xff >>> cols.toNat else (0xff <<< (-cols).toNat) % 256
    let masked := b &&& (col_mask * 0x0101010101010101)
    let sh : Int := 8 * rows + cols
    if 0 < sh then (masked <<< sh.toNat) % U64 else masked >>> (-sh).toNat

/-- `BitBoard::king_move_mask`. -/
def king_move_mask (square : Square) : BitBoard :=
  let s := from_square square
  let lateral_mask := shift s (-1) 0 ||| shift s 1 0
  let screen_mask := lateral_mask ||| s
  lateral_mask ||| shift screen_mask 0 1 ||| shift screen_mask 0 (-1)

/-- `BitBoard::knight_move_mask`. -/
def knight_move_mask (square : Square) : BitBoard :=
  let s := from_square square
  shift s (-2) 1 ||| shift s (-2) (-1) ||| shift s (-1) 2 ||| shift s (-1) (-2) |||
    shift s 1 2 ||| shift s 1 (-2) ||| shift s 2 1 ||| shift s 2 (-1)

/-- `BitBoard::pawn_attack_mask`. -/
def pawn_attack_mask (square : Square) (color : Color) : BitBoard :=
  let s := from_square square
  match color with
  | .White => shift s (-1) 1 ||| shift s 1 1
  | .Black => shift s (-1) (-1) ||| shift s 1 (-1)

/-- `BitBoard::king_moves`: lookup in the table generated from
`king_move_mask`, i.e. semantically `king_move_mask` itself. -/
def king_moves (square : Square) : BitBoard := king_move_mask square

/-- `BitBoard::knight_moves`: table lookup, semantically `knight_move_mask`. -/
def knight_moves (square : Square) : BitBoard := knight_move_mask square

/-- `BitBoard::pawn_attacks`: per-color table lookup, semantically
`pawn_attack_mask`. -/
def pawn_attacks (square : Square) (color : Color) : BitBoard :=
  pawn_attack_mask square color

/-- Bits of all squares satisfying a predicate (helper for the ray models). -/
def bitsWhere (p : Square → Bool) : BitBoard :=
  ((List.finRange 64).filter p).foldr (fun s acc => from_square s ||| acc) 0

/-- A coordinate strictly between two others. -/
def strictlyBetween (a b x : Nat) : Bool := decide (min a b < x ∧ x < max a b)

/-- Modelled from the spec (`BitBoard::straight_ray` is called by board.rs and
lib.rs but its definition is absent from the crate sources): the bitboard of
the squares from `fr` towards `to` along a shared rank or file — `fr` itself
and every square strictly between `fr` and `to`, excluding `to` — or the empty
bitboard when the two squares share neither a rank nor a file.  (Per the spec,
the ray intersected with global occupancy must equal exactly the origin square
for the destination to be reachable, so the ray includes the origin and
excludes the destination.) -/
def straight_ray (fr tsq : Square) : BitBoard :=
  if fr.row = tsq.row then
    bitsWhere (fun s =>
      s == fr || (s.row == fr.row && strictlyBetween fr.col.val tsq.col.val s.col.val))
  else if fr.col = tsq.col then
    bitsWhere (fun s =>
      s == fr || (s.col == fr.col && strictlyBetween fr.row.val tsq.row.val s.row.val))
  else 0

/-- Modelled from the spec (`BitBoard::diag_ray` is called by board.rs but its
definition is absent from the crate sources): the analogous ray along a shared
diagonal (|Δrow| = |Δcol|), again including the origin square and the squares
strictly between, and excluding the destination. -/
def diag_ray (fr tsq : Square) : BitBoard :=
  if (fr.row.val : Int) - tsq.row.val = (fr.col.val : Int) - tsq.col.val ∨
      (fr.row.val : Int) - tsq.row.val = (tsq.col.val : Int) - fr.col.val then
    bitsWhere (fun s =>
      s == fr ||
        (((s.row.val : Int) - fr.row.val = (s.col.val : Int) - fr.col.val ∨
            (s.row.val : Int) - fr.row.val = (fr.col.val : Int) - s.col.val) &&
          ((s.row.val : Int) - tsq.row.val = (s.col.val : Int) - tsq.col.val ∨
            (s.row.val : Int) - tsq.row.val = (tsq.col.val : Int) - s.col.val) &&
          strictlyBetween fr.row.val tsq.row.val s.row.val &&
          strictlyBetween fr.col.val tsq.col.val s.col.val))
  else 0

end BitBoard

/-! ## Castle (castle.rs)

The Rust `Castle` enum packs the four castling-right flags into the
discriminant (K = 1, Q = 2, k = 4, q = 8) and implements `BitAnd`/`BitOr` by
transmuting to the underlying `u8`; it is embedded as the underlying 4-bit
value. -/

abbrev Castle := Nat

namespace Castle

def Null : Castle := 0
def K : Castle := 1
def Q : Castle := 2
def KQ : Castle := 3
def k : Castle := 4
def Kk : Castle := 5
def Qk : Castle := 6
def KQk : Castle := 7
def q : Castle := 8
def Kq : Castle := 9
def Qq : Castle := 10
def KQq : Castle := 11
def kq : Castle := 12
def Kkq : Castle := 13
def Qkq : Castle := 14
def KQkq : Castle := 15

/-- `Castle::can_king_castle`. -/
def can_king_castle (c : Castle) (color : Color) : Bool :=
  let mask := match color with | .White => K | .Black => k
  c &&& mask == mask

/-- `Castle::can_queen_castle`. -/
def can_queen_castle (c : Castle) (color : Color) : Bool :=
  let mask := match color with | .White => Q | .Black => q
  c &&& mask == mask

/-- `Castle::remove_castle`: clears both rights of `color`. -/
def remove_castle (c : Castle) (color : Color) : Castle :=
  let mask := match color with | .White => kq | .Black => KQ
  c &&& mask

/-- `Castle::remove_king_castle`. -/
def remove_king_castle (c : Castle) (color : Color) : Castle :=
  let mask := match color with | .White => Qkq | .Black => KQq
  c &&& mask

/-- `Castle::remove_queen_castle`. -/
def remove_queen_castle (c : Castle) (color : Color) : Castle :=
  let mask := match color with | .White => Kkq | .Black => KQk
  c &&& mask

/-- `impl FromStr for Castle`: the sixteen canonical strings, or an error.
(Fields are handled as character lists so that everything reduces in the
kernel.) -/
def from_str (s : List Char) : Option Castle :=
  match s with
  | ['-'] => some Null
  | ['K'] => some K
  | ['Q'] => some Q
  | ['K', 'Q'] => some KQ
  | ['k'] => some k
  | ['K', 'k'] => some Kk
  | ['Q', 'k'] => some Qk
  | ['K', 'Q', 'k'] => some KQk
  | ['q'] => some q
  | ['K', 'q'] => some Kq
  | ['Q', 'q'] => some Qq
  | ['K', 'Q', 'q'] => some KQq
  | ['k', 'q'] => some kq
  | ['K', 'k', 'q'] => some Kkq
  | ['Q', 'k', 'q'] => some Qkq
  | ['K', 'Q', 'k', 'q'] => some KQkq
  | _ => none

end Castle

/-! ## MailBox and Board (board.rs) -/

/-- Modelled from the spec (the `mailbox` module is declared by board.rs but
its source is absent from the crate): a dense square-to-piece lookup table
with O(1) point queries, here a total function on the 64 squares.
`get_sq`/`set_sq`/`clear_sq` return the previous occupant. -/
def MailBox := Square → Option Piece

instance : DecidableEq MailBox := Fintype.decidablePiFintype

namespace MailBox

def get_sq (m : MailBox) (square : Square) : Option Piece := m square

def set_sq (m : MailBox) (square : Square) (piece : Piece) : Option Piece × MailBox :=
  (m square, Function.update m square (some piece))

def clear_sq (m : MailBox) (square : Square) : Option Piece × MailBox :=
  (m square, Function.update m square none)

def emptyBox : MailBox := fun _ => none

end MailBox

/-- Helper for `str::split(sep)`: split a character list on a separator
(structural recursion, so that FEN parsing reduces inside the kernel). -/
def splitCharsAux (sep : Char) : List Char → List Char → List (List Char)
  | [], acc => [acc.reverse]
  | c :: rest, acc =>
    if c = sep then acc.reverse :: splitCharsAux sep rest []
    else splitCharsAux sep rest (c :: acc)

/-- `str::split(sep)` on a character list. -/
def splitChars (sep : Char) (cs : List Char) : List (List Char) :=
  splitCharsAux sep cs []

/-- PieceSet from board.rs: the six per-figure bitboards of one color plus the
color occupancy aggregate. -/
structure PieceSet where
  color : Color
  pawns : BitBoard
  rooks : BitBoard
  knights : BitBoard
  bishops : BitBoard
  queens : BitBoard
  kings : BitBoard
  occupied : BitBoard
deriving DecidableEq, Repr

/-- `PieceSet::new`. -/
def PieceSet.new (color : Color) : PieceSet :=
  { color := color, pawns := 0, rooks := 0, knights := 0, bishops := 0,
    queens := 0, kings := 0, occupied := 0 }

/-- Board from board.rs. -/
structure Board where
  white_pieces : PieceSet
  black_pieces : PieceSet
  occupied : BitBoard
  mailbox : MailBox

instance : DecidableEq Board := fun a b =>
  decidable_of_iff
    (a.white_pieces = b.white_pieces ∧ a.black_pieces = b.black_pieces ∧
      a.occupied = b.occupied ∧ a.mailbox = b.mailbox)
    (by cases a; cases b; simp)

namespace Board

/-- `Board::new`. -/
def new : Board :=
  { white_pieces := PieceSet.new .White, black_pieces := PieceSet.new .Black,
    occupied := 0, mailbox := MailBox.emptyBox }

/-- `Board::get_piece_board`: the per-(color, figure) bitboard. -/
def get_piece_board (b : Board) (piece : Piece) : BitBoard :=
  match piece with
  | ⟨.White, .Pawn⟩ => b.white_pieces.pawns
  | ⟨.White, .Rook⟩ => b.white_pieces.rooks
  | ⟨.White, .Knight⟩ => b.white_pieces.knights
  | ⟨.White, .Bishop⟩ => b.white_pieces.bishops
  | ⟨.White, .Queen⟩ => b.white_pieces.queens
  | ⟨.White, .King⟩ => b.white_pieces.kings
  | ⟨.Black, .Pawn⟩ => b.black_pieces.pawns
  | ⟨.Black, .Rook⟩ => b.black_pieces.rooks
  | ⟨.Black, .Knight⟩ => b.black_pieces.knights
  | ⟨.Black, .Bishop⟩ => b.black_pieces.bishops
  | ⟨.Black, .Queen⟩ => b.black_pieces.queens
  | ⟨.Black, .King⟩ => b.black_pieces.kings

/-- Writing through `Board::get_piece_board_mut`: replace the bitboard of one
(color, figure) pair. -/
def set_piece_bb (b : Board) (piece : Piece) (v : BitBoard) : Board :=
  match piece with
  | ⟨.White, .Pawn⟩ => { b with white_pieces := { b.white_pieces with pawns := v } }
  | ⟨.White, .Rook⟩ => { b with white_pieces := { b.white_pieces with rooks := v } }
  | ⟨.White, .Knight⟩ => { b with white_pieces := { b.white_pieces with knights := v } }
  | ⟨.White, .Bishop⟩ => { b with white_pieces := { b.white_pieces with bishops := v } }
  | ⟨.White, .Queen⟩ => { b with white_pieces := { b.white_pieces with queens := v } }
  | ⟨.White, .King⟩ => { b with white_pieces := { b.white_pieces with kings := v } }
  | ⟨.Black, .Pawn⟩ => { b with black_pieces := { b.black_pieces with pawns := v } }
  | ⟨.Black, .Rook⟩ => { b with black_pieces := { b.black_pieces with rooks := v } }
  | ⟨.Black, .Knight⟩ => { b with black_pieces := { b.black_pieces with knights := v } }
  | ⟨.Black, .Bishop⟩ => { b with black_pieces := { b.black_pieces with bishops := v } }
  | ⟨.Black, .Queen⟩ => { b with black_pieces := { b.black_pieces with queens := v } }
  | ⟨.Black, .King⟩ => { b with black_pieces := { b.black_pieces with kings := v } }

/-- `Board::occupied_color`. -/
def occupied_color (b : Board) (color : Color) : BitBoard :=
  match color with
  | .White => b.white_pieces.occupied
  | .Black => b.black_pieces.occupied

/-- Writing through `Board::occupied_color_mut`. -/
def set_occ_color (b : Board) (color : Color) (v : BitBoard) : Board :=
  match color with
  | .White => { b with white_pieces := { b.white_pieces with occupied := v } }
  | .Black => { b with black_pieces := { b.black_pieces with occupied := v } }

/-- `Board::clear_piece_board`: `bb &= !mask` on the piece board, the color
occupancy and the global occupancy. -/
def clear_piece_board (b : Board) (piece : Piece) (mask : BitBoard) : Board :=
  let should_keep := BitBoard.bbNot mask
  let b1 := b.set_piece_bb piece (b.get_piece_board piece &&& should_keep)
  let b2 := b1.set_occ_color piece.color (b1.occupied_color piece.color &&& should_keep)
  { b2 with occupied := b2.occupied &&& should_keep }

/-- `Board::set_piece_board`: `bb |= mask` on the same three boards. -/
def set_piece_board (b : Board) (piece : Piece) (mask : BitBoard) : Board :=
  let b1 := b.set_piece_bb piece (b.get_piece_board piece ||| mask)
  let b2 := b1.set_occ_color piece.color (b1.occupied_color piece.color ||| mask)
  { b2 with occupied := b2.occupied ||| mask }

/-- `Board::get_sq`. -/
def get_sq (b : Board) (square : Square) : Option Piece :=
  b.mailbox.get_sq square

/-- `Board::clear_sq`: clear the mailbox entry, and if a piece was present,
clear its bit from the bitboards. -/
def clear_sq (b : Board) (square : Square) : Option Piece × Board :=
  let r := b.mailbox.clear_sq square
  let b1 := { b with mailbox := r.2 }
  match r.1 with
  | none => (none, b1)
  | some p => (some p, b1.clear_piece_board p (BitBoard.from_square square))

/-- `Board::set_sq`: write the mailbox entry (returning the displaced piece,
whose stale bit is cleared) and set the new piece bit. -/
def set_sq (b : Board) (square : Square) (piece : Piece) : Option Piece × Board :=
  let r := b.mailbox.set_sq square piece
  let b1 := { b with mailbox := r.2 }
  let b2 := match r.1 with
    | none => b1
    | some p => b1.clear_piece_board p (BitBoard.from_square square)
  (r.1, b2.set_piece_board piece (BitBoard.from_square square))

/-- `Board::move_piece`: `clear_sq(from).and_then(|p| set_sq(to, p))` — a no-op
returning `None` when `from` is empty; otherwise returns the captured piece. -/
def move_piece (b : Board) (fr tsq : Square) : Option Piece × Board :=
  let r := b.clear_sq fr
  match r.1 with
  | none => (none, r.2)
  | some p => r.2.set_sq tsq p

/-- `Board::unmove_piece`: move the piece back from `to` to `from`, then
restore `captured` onto `to` if present. -/
def unmove_piece (b : Board) (fr tsq : Square) (captured : Option Piece) : Board :=
  let b1 := (b.move_piece tsq fr).2
  match captured with
  | some c => (b1.set_sq tsq c).2
  | none => b1

/-- `Board::count_pieces`. -/
def count_pieces (b : Board) (piece : Piece) : Nat :=
  (b.get_piece_board piece).count_squares

/-- `Board::pawn_moves`: diagonal captures onto enemy-occupied squares, plus
the single push and the double push from the starting rank through empty
squares. -/
def pawn_moves (b : Board) (fr : Square) (turn : Color) : BitBoard :=
  let attacks := BitBoard.pawn_attacks fr turn &&& b.occupied_color turn.not
  let moves :=
    match turn with
    | .White =>
      let m := BitBoard.shift (BitBoard.from_square fr) 0 1 &&& BitBoard.bbNot b.occupied
      m ||| (BitBoard.shift m 0 1 &&& BitBoard.from_row 3 &&& BitBoard.bbNot b.occupied)
    | .Black =>
      let m := BitBoard.shift (BitBoard.from_square fr) 0 (-1) &&& BitBoard.bbNot b.occupied
      m ||| (BitBoard.shift m 0 (-1) &&& BitBoard.from_row 4 &&& BitBoard.bbNot b.occupied)
  attacks ||| moves

/-- `Board::is_pseudo::<FIGURE>`: geometry-only legality for knight, rook,
bishop and queen.  (The Rust `Pawn`/`King` arms are `todo!()` and are never
reached; they are mapped to `false` here.) -/
def is_pseudo (b : Board) (figure : Figure) (fr tsq : Square) (turn : Color) : Bool :=
  match figure with
  | .Knight =>
    (BitBoard.knight_moves fr &&& BitBoard.bbNot (b.occupied_color turn)).contains tsq
  | .Rook =>
    let is_cleared :=
      BitBoard.straight_ray fr tsq &&& b.occupied == BitBoard.from_square fr
    is_cleared && !(b.occupied_color turn).contains tsq
  | .Bishop =>
    let is_cleared :=
      BitBoard.diag_ray fr tsq &&& b.occupied == BitBoard.from_square fr
    is_cleared && !(b.occupied_color turn).contains tsq
  | .Queen =>
    let is_cleared :=
      (BitBoard.straight_ray fr tsq ||| BitBoard.diag_ray fr tsq) &&& b.occupied ==
        BitBoard.from_square fr
    is_cleared && !(b.occupied_color turn).contains tsq
  | _ => false

/-- `Board::is_square_attacked(square, turn)`: does any piece of the color
opposite to `turn` attack `square`?  Checks the enemy king, knight and pawn
attack patterns, then scans the enemy rooks with `is_pseudo::<Rook>` — note
that the Rust function checks no bishop or queen attackers. -/
def is_square_attacked (b : Board) (square : Square) (turn : Color) : Bool :=
  let enemy_king_mask := BitBoard.king_moves square
  let enemy_king_location := b.get_piece_board ⟨turn.not, .King⟩
  if !(BitBoard.empty (enemy_king_mask &&& enemy_king_location)) then true
  else
    let enemy_knight_mask := BitBoard.knight_moves square
    let enemy_knight_location := b.get_piece_board ⟨turn.not, .Knight⟩
    if !(BitBoard.empty (enemy_knight_mask &&& enemy_knight_location)) then true
    else
      let enemy_pawn_mask := b.pawn_moves square turn
      let enemy_pawn_location := b.get_piece_board ⟨turn.not, .Pawn⟩
      if !(BitBoard.empty (enemy_pawn_mask &&& enemy_pawn_location)) then true
      else
        (BitBoard.squaresOf (b.get_piece_board ⟨turn.not, .Rook⟩)).any
          (fun rook_sq => b.is_pseudo .Rook rook_sq square turn.not)

/-- `Board::is_in_check(turn)`: some square of that color's king bitboard is
attacked by the opposite color. -/
def is_in_check (b : Board) (turn : Color) : Bool :=
  (BitBoard.squaresOf (b.get_piece_board ⟨turn, .King⟩)).any
    (fun s => b.is_square_attacked s turn)

/-- One character of a FEN rank (inner loop of `Board::try_from_fen`): digits
advance the column cursor, piece letters are placed and advance it by one.
Out-of-range columns fail as the Rust `try_into` does (payload dropped). -/
def fenChar (st : Board × Nat) (row_idx : Nat) (c : Char) : Option (Board × Nat) :=
  if c.isDigit then some (st.1, st.2 + (c.toNat - 48))
  else
    match Piece.try_from c with
    | none => none
    | some piece =>
      if hc : st.2 < 8 then
        if hr : row_idx < 8 then
          some ((st.1.set_sq (Square.from_coords ⟨st.2, hc⟩ ⟨row_idx, hr⟩) piece).2,
            st.2 + 1)
        else none
      else none

/-- `Board::try_from_fen`: split the placement field on slashes (rank 8
first), require exactly 8 ranks, and place the pieces rank by rank. -/
def try_from_fen (fen : List Char) : Option Board :=
  match splitChars ' ' fen with
  | [] => none
  | piece_data :: _ =>
    let row_data := splitChars '/' piece_data
    if row_data.length ≠ 8 then none
    else
      ((List.range 8).reverse.zip row_data).foldlM
        (fun b (ri, row) =>
          (row.foldlM (fun st c => fenChar st ri c) (b, 0)).map (fun st => st.1))
        Board.new

end Board

/-! ## GameState (lib.rs)

`&mut self` methods that return `Result<Option<Piece>, MoveError>` are
embedded as functions returning `Except MoveError (Option Piece) × GameState`:
the final state is returned even on error, which is what makes the
atomicity-on-rejection claims expressible. -/

/-- MoveError from errors.rs (lib.rs uses the variant name `Promoting`). -/
inductive MoveError where
  | EmptySquare
  | WrongTurn
  | IllegalMove
  | KingInCheck
  | Promoting
deriving DecidableEq, Repr

/-- GameState from lib.rs.  `half_move`/`full_move` are `u16` in Rust; they
are embedded as `Nat` and the increments reduce modulo `2^16`. -/
structure GameState where
  board : Board
  turn : Color
  castle : Castle
  ep_square : Option Square
  half_move : Nat
  full_move : Nat

instance : DecidableEq GameState := fun a b =>
  decidable_of_iff
    (a.board = b.board ∧ a.turn = b.turn ∧ a.castle = b.castle ∧
      a.ep_square = b.ep_square ∧ a.half_move = b.half_move ∧
      a.full_move = b.full_move)
    (by cases a; cases b; simp)

instance {e a : Type} [DecidableEq e] [DecidableEq a] : DecidableEq (Except e a) :=
  fun x y =>
    match x, y with
    | .ok u, .ok v => decidable_of_iff (u = v) (by simp)
    | .error u, .error v => decidable_of_iff (u = v) (by simp)
    | .ok _, .error _ => isFalse (by simp)
    | .error _, .ok _ => isFalse (by simp)

abbrev MoveOutcome := Except MoveError (Option Piece) × GameState

namespace GameState

/-- `GameState::get_turn`. -/
def get_turn (s : GameState) : Color := s.turn

/-- `GameState::get_sq`. -/
def get_sq (s : GameState) (square : Square) : Option Piece :=
  s.board.get_sq square

/-- `GameState::test_move_for_check`: speculatively apply the move; if the
mover is left in check, roll back with `unmove_piece` and report
`KingInCheck`. -/
def test_move_for_check (s : GameState) (fr tsq : Square) : MoveOutcome :=
  let r := s.board.move_piece fr tsq
  if r.2.is_in_check s.turn then
    (.error .KingInCheck, { s with board := r.2.unmove_piece fr tsq r.1 })
  else
    (.ok r.1, { s with board := r.2 })

/-- `GameState::end_move`: revoke the opponent's castling right when the move
lands on the opponent rook home square, bump the full-move counter after a
Black move, and flip the turn. -/
def end_move (s : GameState) (to_square : Square) : GameState :=
  let opp_rooks :=
    match s.turn with
    | Color.White => (sqA8, sqH8)
    | Color.Black => (sqA1, sqH1)
  let castle :=
    if to_square = opp_rooks.2 then s.castle.remove_king_castle s.turn.not
    else if to_square = opp_rooks.1 then s.castle.remove_queen_castle s.turn.not
    else s.castle
  let full_move :=
    if s.turn = Color.Black then (s.full_move + 1) % 65536 else s.full_move
  { s with castle := castle, full_move := full_move, turn := s.turn.not }

/-- The shared tail of `GameState::make_pawn_move`: set the en-passant target
after a double push (start rank to fourth/fifth rank), clear it otherwise, and
zero the half-move clock. -/
def pawn_move_tail (s : GameState) (fr tsq : Square) : GameState :=
  let (start_row, ep_row, end_row) :=
    match s.turn with
    | Color.White => ((1 : Row), (2 : Row), (3 : Row))
    | Color.Black => ((6 : Row), (5 : Row), (4 : Row))
  let ep_square :=
    if fr.row = start_row ∧ tsq.row = end_row then
      some (Square.from_coords tsq.col ep_row)
    else none
  { s with ep_square := ep_square, half_move := 0 }

/-- `GameState::make_pawn_move`: ordinary `pawn_moves` destinations (with the
promotion-rank rejection), or the en-passant branch when the destination is
the en-passant target inside the pawn-attack pattern. -/
def make_pawn_move (s : GameState) (fr tsq : Square) : MoveOutcome :=
  let non_ep_moves := s.board.pawn_moves fr s.turn
  if non_ep_moves.contains tsq then
    let r := s.test_move_for_check fr tsq
    match r.1 with
    | .error e => (.error e, r.2)
    | .ok captured =>
      let s1 := r.2
      let last_row : Row := match s1.turn with | Color.White => 7 | Color.Black => 0
      if tsq.row = last_row then
        (.error .Promoting, { s1 with board := s1.board.unmove_piece fr tsq captured })
      else
        (.ok captured, s1.pawn_move_tail fr tsq)
  else
    match s.ep_square with
    | some ep =>
      if tsq = ep ∧ (BitBoard.pawn_attacks fr s.turn).contains tsq then
        let capture_sq := Square.from_coords tsq.col fr.row
        let b1 := (s.board.move_piece fr tsq).2
        let r2 := b1.clear_sq capture_sq
        if r2.2.is_in_check s.turn then
          let b3 := (r2.2.move_piece tsq fr).2
          let b4 :=
            match r2.1 with
            | some p => (b3.set_sq capture_sq p).2
            | none => b3
          (.error .KingInCheck, { s with board := b4 })
        else
          (.ok r2.1, ({ s with board := r2.2 }).pawn_move_tail fr tsq)
      else (.error .IllegalMove, s)
    | none => (.error .IllegalMove, s)

/-- The shared tail of `GameState::make_king_move` and
`GameState::make_generic_move::<Rook>` castling-rights / en-passant /
half-move bookkeeping on success. -/
def non_pawn_tail (s : GameState) (captured : Option Piece) : GameState :=
  { s with ep_square := none,
           half_move := match captured with
                        | some _ => 0
                        | none => (s.half_move + 1) % 65536 }

/-- `GameState::make_king_move`: an ordinary king-pattern move onto a
non-own-occupied square, or the castling branch — destination column C or G on
the castling rank, the corresponding right held, and no square of
`straight_ray(king, rook)` attacked; castling moves the king then the rook.
On success the mover's castling rights are removed and the bookkeeping tail
runs. -/
def make_king_move (s : GameState) (fr tsq : Square) : MoveOutcome :=
  let non_castle_moves :=
    BitBoard.king_moves fr &&& BitBoard.bbNot (s.board.occupied_color s.turn)
  let inner : MoveOutcome :=
    if non_castle_moves.contains tsq then
      s.test_move_for_check fr tsq
    else
      let castle_row : Row := match s.turn with | Color.White => 0 | Color.Black => 7
      if tsq.col = (2 : Column) ∧ tsq.row = castle_row then
        if s.castle.can_queen_castle s.turn then
          let rook_from := Square.from_coords 0 castle_row
          let rook_to := Square.from_coords 3 castle_row
          if (BitBoard.squaresOf (BitBoard.straight_ray fr rook_from)).any
              (fun square => s.board.is_square_attacked square s.turn) then
            (.error .KingInCheck, s)
          else
            let b1 := (s.board.move_piece fr tsq).2
            let b2 := (b1.move_piece rook_from rook_to).2
            (.ok none, { s with board := b2 })
        else (.error .IllegalMove, s)
      else if tsq.col = (6 : Column) ∧ tsq.row = castle_row then
        if s.castle.can_king_castle s.turn then
          let rook_from := Square.from_coords 7 castle_row
          let rook_to := Square.from_coords 5 castle_row
          if (BitBoard.squaresOf (BitBoard.straight_ray fr rook_from)).any
              (fun square => s.board.is_square_attacked square s.turn) then
            (.error .KingInCheck, s)
          else
            let b1 := (s.board.move_piece fr tsq).2
            let b2 := (b1.move_piece rook_from rook_to).2
            (.ok none, { s with board := b2 })
        else (.error .IllegalMove, s)
      else (.error .IllegalMove, s)
  match inner.1 with
  | .error e => (.error e, inner.2)
  | .ok captured =>
    (.ok captured,
      non_pawn_tail { inner.2 with castle := inner.2.castle.remove_castle inner.2.turn }
        captured)

/-- `GameState::make_generic_move::<FIGURE>` for knight/rook/bishop/queen:
`is_pseudo` then the check test; a rook leaving its home square drops the
corresponding castling right. -/
def make_generic_move (s : GameState) (figure : Figure) (fr tsq : Square) :
    MoveOutcome :=
  let inner : MoveOutcome :=
    if s.board.is_pseudo figure fr tsq s.turn then s.test_move_for_check fr tsq
    else (.error .IllegalMove, s)
  match inner.1 with
  | .error e => (.error e, inner.2)
  | .ok captured =>
    let s1 := inner.2
    let s2 :=
      if figure = .Rook then
        let rook_homes :=
          match s1.turn with
          | Color.White => (sqA1, sqH1)
          | Color.Black => (sqA8, sqH8)
        if fr = rook_homes.2 then { s1 with castle := s1.castle.remove_king_castle s1.turn }
        else if fr = rook_homes.1 then
          { s1 with castle := s1.castle.remove_queen_castle s1.turn }
        else s1
      else s1
    (.ok captured, non_pawn_tail s2 captured)

/-- `GameState::make_move`: dispatch on the figure at `from` after the
empty-square and turn checks, then run `end_move`. -/
def make_move (s : GameState) (fr tsq : Square) : MoveOutcome :=
  match s.board.get_sq fr with
  | none => (.error .EmptySquare, s)
  | some ⟨color, figure⟩ =>
    if color ≠ s.turn then (.error .WrongTurn, s)
    else
      let rs :=
        match figure with
        | .Pawn => s.make_pawn_move fr tsq
        | .King => s.make_king_move fr tsq
        | .Knight => s.make_generic_move .Knight fr tsq
        | .Rook => s.make_generic_move .Rook fr tsq
        | .Bishop => s.make_generic_move .Bishop fr tsq
        | .Queen => s.make_generic_move .Queen fr tsq
      match rs.1 with
      | .error e => (.error e, rs.2)
      | .ok captured => (.ok captured, rs.2.end_move tsq)

/-- `GameState::make_promotion`: requires a pawn of the side to move on
`from` and a legal (check-safe) `pawn_moves` destination, then overwrites the
destination with `promotion_piece` — the Rust function never inspects
`promotion_piece` itself. -/
def make_promotion (s : GameState) (fr tsq : Square) (promotion_piece : Piece) :
    MoveOutcome :=
  match s.board.get_sq fr with
  | some ⟨color, .Pawn⟩ =>
    if color ≠ s.turn then (.error .WrongTurn, s)
    else
      let moves := s.board.pawn_moves fr s.turn
      let r := if moves.contains tsq then s.test_move_for_check fr tsq
               else (.error .IllegalMove, s)
      match r.1 with
      | .error e => (.error e, r.2)
      | .ok captured =>
        let s1 := r.2
        let b := (s1.board.set_sq tsq promotion_piece).2
        (.ok captured,
          ({ s1 with board := b, half_move := 0, ep_square := none }).end_move tsq)
  | _ => (.error .IllegalMove, s)

/-- `"w"`/`"b"` turn field of the FEN (payloadless error). -/
def parse_turn (sb : List Char) : Option Color :=
  match sb with
  | ['w'] => some Color.White
  | ['b'] => some Color.Black
  | _ => none

/-- `impl FromStr for Square`: a file letter then a rank digit. -/
def parse_square (sb : List Char) : Option Square :=
  match sb with
  | [c1, c2] =>
    if h1 : 97 ≤ c1.toNat ∧ c1.toNat - 97 < 8 then
      if h2 : 49 ≤ c2.toNat ∧ c2.toNat - 49 < 8 then
        some (Square.from_coords ⟨c1.toNat - 97, h1.2⟩ ⟨c2.toNat - 49, h2.2⟩)
      else none
    else none
  | _ => none

/-- `str::parse::<u16>` on the half/full-move fields: a digit string whose
value fits in a `u16`. -/
def parse_u16 (sb : List Char) : Option Nat :=
  if sb.length ≠ 0 ∧ sb.all Char.isDigit then
    let v := sb.foldl (fun a c => 10 * a + (c.toNat - 48)) 0
    if v < 65536 then some v else none
  else none

/-- `GameState::try_from_fen`: parse the six space-separated fields in order,
then reject any position without exactly one king of each color.  (The
distinct `ParseFenError` variants are collapsed into `none`.) -/
def try_from_fen (fen : String) : Option GameState :=
  let parts := splitChars ' ' fen.toList
  match parts.get? 0 with
  | none => none
  | some position_fen =>
    match Board.try_from_fen position_fen with
    | none => none
    | some board =>
      match parts.get? 1 with
      | none => none
      | some turn_str =>
        match parse_turn turn_str with
        | none => none
        | some turn =>
          match parts.get? 2 with
          | none => none
          | some castle_str =>
            match Castle.from_str castle_str with
            | none => none
            | some castle =>
              match parts.get? 3 with
              | none => none
              | some ep_str =>
                let ep? : Option (Option Square) :=
                  if ep_str = ['-'] then some none
                  else match parse_square ep_str with
                       | some sq => some (some sq)
                       | none => none
                match ep? with
                | none => none
                | some ep_square =>
                  match parts.get? 4 with
                  | none => none
                  | some half_str =>
                    match parse_u16 half_str with
                    | none => none
                    | some half_move =>
                      match parts.get? 5 with
                      | none => none
                      | some full_str =>
                        match parse_u16 full_str with
                        | none => none
                        | some full_move =>
                          if board.count_pieces WHITE_KING ≠ 1 ∨
                              board.count_pieces BLACK_KING ≠ 1 then none
                          else
                            some { board := board, turn := turn, castle := castle,
                                   ep_square := ep_square, half_move := half_move,
                                   full_move := full_move }

end GameState

/-- DEFAULT_FEN from lib.rs. -/
def DEFAULT_FEN : String := "rnbqkbnr/pppppppp/8/8/8/8/PPPPPPPP/RNBQKBNR w KQkq - 0 1"

/-- A fallback state used only to give `Option.getD` a default; every theorem
that mentions a parsed state first proves that parsing succeeded, so the
fallback is never reached. -/
def fallbackState : GameState :=
  { board := Board.new, turn := Color.White, castle := 0, ep_square := none,
    half_move := 0, full_move := 0 }

/-- The state parsed from a FEN, with the (never used) fallback default. -/
def stateOfFen (fen : String) : GameState :=
  (GameState.try_from_fen fen).getD fallbackState

/-- Modelled from the spec, for comparison with `Board::is_square_attacked`:
"true if any enemy king/knight/pawn attack-pattern covers the square, or any
enemy sliding piece (rook/bishop/queen pattern) has an unblocked ray to the
square.  Must check all six attacking figure types."  The pawn check uses the
true pawn-diagonal pattern, and rooks, bishops and queens are each scanned
with the corresponding unblocked-ray test. -/
def spec_is_square_attacked (b : Board) (square : Square) (turn : Color) : Bool :=
  !(BitBoard.empty
      (BitBoard.king_moves square &&& b.get_piece_board ⟨turn.not, .King⟩)) ||
  !(BitBoard.empty
      (BitBoard.knight_moves square &&& b.get_piece_board ⟨turn.not, .Knight⟩)) ||
  !(BitBoard.empty
      (BitBoard.pawn_attacks square turn &&& b.get_piece_board ⟨turn.not, .Pawn⟩)) ||
  (BitBoard.squaresOf (b.get_piece_board ⟨turn.not, .Rook⟩)).any
    (fun sq => b.is_pseudo .Rook sq square turn.not) ||
  (BitBoard.squaresOf (b.get_piece_board ⟨turn.not, .Bishop⟩)).any
    (fun sq => b.is_pseudo .Bishop sq square turn.not) ||
  (BitBoard.squaresOf (b.get_piece_board ⟨turn.not, .Queen⟩)).any
    (fun sq => b.is_pseudo .Queen sq square turn.not)

/-- The Board representation invariant stated by the spec's data model: the
mailbox and the bitboards agree on every square — a square holds piece `p` in
the mailbox exactly when `p`'s bitboard has that bit, the per-color occupancy
bit is set exactly when a piece of that color is there, the global occupancy
bit exactly when the square is non-empty — and every bitboard fits in 64
bits. -/
def Board.WF (b : Board) : Prop :=
  (∀ p : Piece, b.get_piece_board p < U64) ∧
  (∀ c : Color, b.occupied_color c < U64) ∧
  b.occupied < U64 ∧
  (∀ (p : Piece) (sq : Square),
    (b.get_piece_board p).testBit sq.val = true ↔ b.mailbox sq = some p) ∧
  (∀ (c : Color) (sq : Square),
    (b.occupied_color c).testBit sq.val = true ↔
      ∃ f : Figure, b.mailbox sq = some ⟨c, f⟩) ∧
  (∀ sq : Square, b.occupied.testBit sq.val = true ↔ b.mailbox sq ≠ none)

instance (b : Board) : Decidable b.WF := by
  unfold Board.WF
  infer_instance

/-! ## Helper lemmas -/

theorem Board.mailbox_set_piece_bb (b : Board) (p : Piece) (v : BitBoard) :
    (b.set_piece_bb p v).mailbox = b.mailbox := by
  rcases p with ⟨c, f⟩
  cases c <;> cases f <;> rfl

theorem Board.mailbox_set_occ_color (b : Board) (c : Color) (v : BitBoard) :
    (b.set_occ_color c v).mailbox = b.mailbox := by
  cases c <;> rfl

theorem Board.mailbox_clear_piece_board (b : Board) (p : Piece) (m : BitBoard) :
    (b.clear_piece_board p m).mailbox = b.mailbox := by
  simp [Board.clear_piece_board, Board.mailbox_set_piece_bb, Board.mailbox_set_occ_color]

theorem Board.mailbox_set_piece_board (b : Board) (p : Piece) (m : BitBoard) :
    (b.set_piece_board p m).mailbox = b.mailbox := by
  simp [Board.set_piece_board, Board.mailbox_set_piece_bb, Board.mailbox_set_occ_color]

theorem Board.get_sq_set_sq (b : Board) (sq : Square) (p : Piece) :
    (b.set_sq sq p).2.get_sq sq = some p := by
  simp only [Board.set_sq, MailBox.set_sq, Board.get_sq, MailBox.get_sq]
  split
  · simp [Board.mailbox_set_piece_board, Function.update_same]
  · simp [Board.mailbox_set_piece_board, Board.mailbox_clear_piece_board,
      Function.update_same]

theorem GameState.end_move_board (s : GameState) (x : Square) :
    (s.end_move x).board = s.board := rfl

/-! ## Claims -/

/-- C1: `Board::is_square_attacked` is claimed to detect attackers of all six
figure types.  The code checks king, knight, pawn and rook attackers but
never bishops or queens: with only a black bishop on c3, a1 is attacked
(unobstructed diagonal through the empty b2), the spec-complete attacker test
reports `true`, yet `is_square_attacked(A1, White)` returns `false` and the
white king on a1 is reported not in check. -/
theorem C1_attack_detection_omits_bishops_and_queens :
    (stateOfFen "7k/8/8/8/8/2b5/8/K7 w - - 0 1").board.get_sq sqC3 =
        some BLACK_BISHOP ∧
    (stateOfFen "7k/8/8/8/8/2b5/8/K7 w - - 0 1").board.is_square_attacked sqA1
        Color.White = false ∧
    spec_is_square_attacked (stateOfFen "7k/8/8/8/8/2b5/8/K7 w - - 0 1").board sqA1
        Color.White = true ∧
    (stateOfFen "7k/8/8/8/8/2b5/8/K7 w - - 0 1").board.is_in_check Color.White =
        false := by
  refine ⟨by decide, by decide, by decide, by decide⟩

/-- C2: castling is claimed to be rejected when a square between the king and
the rook is occupied; `make_king_move` never tests that occupancy.  From
`4k3/8/8/8/8/8/8/4K1NR w K - 0 1` (white knight on g1), `make_move(E1, G1)` is
accepted as king-side castling, reports no capture, silently destroys the
knight, and leaves king g1 / rook f1. -/
theorem C2_castling_through_occupied_square_accepted :
    GameState.try_from_fen "4k3/8/8/8/8/8/8/4K1NR w K - 0 1" =
        some (stateOfFen "4k3/8/8/8/8/8/8/4K1NR w K - 0 1") ∧
    (stateOfFen "4k3/8/8/8/8/8/8/4K1NR w K - 0 1").board.get_sq sqG1 =
        some WHITE_KNIGHT ∧
    ((stateOfFen "4k3/8/8/8/8/8/8/4K1NR w K - 0 1").make_move sqE1 sqG1).1 =
        Except.ok none ∧
    ((stateOfFen "4k3/8/8/8/8/8/8/4K1NR w K - 0 1").make_move sqE1
        sqG1).2.board.count_pieces WHITE_KNIGHT = 0 ∧
    ((stateOfFen "4k3/8/8/8/8/8/8/4K1NR w K - 0 1").make_move sqE1
        sqG1).2.board.get_sq sqG1 = some WHITE_KING ∧
    ((stateOfFen "4k3/8/8/8/8/8/8/4K1NR w K - 0 1").make_move sqE1
        sqG1).2.board.get_sq sqF1 = some WHITE_ROOK := by
  refine ⟨by decide, by decide, by decide, by decide, by decide, by decide⟩

/-- C3: every error is claimed to leave the GameState exactly as it was.  In
the en-passant branch the speculative `move_piece(from, to)` return value is
discarded, so a piece sitting on the en-passant target square is not restored
by the rollback: from `4k3/8/3B4/r2pP2K/8/8/8/8 w - d6 0 1`, `make_move(E5, D6)`
fails with KingInCheck (the a5 rook checks h5 once e5/d5 empty) yet the white
bishop that was on d6 has vanished from the returned state. -/
theorem C3_rejected_en_passant_leaks_state :
    GameState.try_from_fen "4k3/8/3B4/r2pP2K/8/8/8/8 w - d6 0 1" =
        some (stateOfFen "4k3/8/3B4/r2pP2K/8/8/8/8 w - d6 0 1") ∧
    (stateOfFen "4k3/8/3B4/r2pP2K/8/8/8/8 w - d6 0 1").board.get_sq sqD6 =
        some WHITE_BISHOP ∧
    ((stateOfFen "4k3/8/3B4/r2pP2K/8/8/8/8 w - d6 0 1").make_move sqE5 sqD6).1 =
        Except.error MoveError.KingInCheck ∧
    ((stateOfFen "4k3/8/3B4/r2pP2K/8/8/8/8 w - d6 0 1").make_move sqE5
        sqD6).2.board.get_sq sqD6 = none ∧
    ((stateOfFen "4k3/8/3B4/r2pP2K/8/8/8/8 w - d6 0 1").make_move sqE5 sqD6).2 ≠
        stateOfFen "4k3/8/3B4/r2pP2K/8/8/8/8 w - d6 0 1" := by
  refine ⟨by decide, by decide, by decide, by decide, by decide⟩

/-- C4 (counterexample): `make_promotion` is claimed to reject a promotion
piece whose color differs from the side to move or whose figure is Pawn or
King.  From the default position (White to move), promoting e2-e3 to a BLACK
KING succeeds and puts a second black king on the board. -/
theorem C4_promotion_piece_not_validated :
    ((stateOfFen DEFAULT_FEN).make_promotion sqE2 sqE3 BLACK_KING).1 =
        Except.ok none ∧
    ((stateOfFen DEFAULT_FEN).make_promotion sqE2 sqE3
        BLACK_KING).2.board.get_sq sqE3 = some BLACK_KING ∧
    ((stateOfFen DEFAULT_FEN).make_promotion sqE2 sqE3
        BLACK_KING).2.board.count_pieces BLACK_KING = 2 := by
  refine ⟨by decide, by decide, by decide⟩

/-- C4 (amended): `make_promotion` performs no validation of
`promotion_piece`: its success or failure is independent of the piece passed,
and on success that piece is placed as-is on the destination square. -/
theorem C4_amended_promotion_piece_ignored (s : GameState) (fr tsq : Square)
    (p q : Piece) (h : (s.make_promotion fr tsq p).1.isOk = true) :
    ((s.make_promotion fr tsq q).1.isOk = true) ∧
    (s.make_promotion fr tsq p).2.board.get_sq tsq = some p := by
  rcases hg : s.board.get_sq fr with _ | ⟨c, f⟩
  · simp [GameState.make_promotion, hg, Except.isOk, Except.toBool] at h
  · cases f
    case Pawn =>
      simp only [GameState.make_promotion, hg] at h ⊢
      by_cases hc : c = s.turn
      · simp only [hc, ne_eq, not_true_eq_false, if_false] at h ⊢
        split at h
        · simp [Except.isOk, Except.toBool] at h
        · refine ⟨by simp [Except.isOk, Except.toBool], ?_⟩
          simp [GameState.end_move_board, Board.get_sq_set_sq]
      · simp [hc, Except.isOk, Except.toBool] at h
    all_goals simp [GameState.make_promotion, hg, Except.isOk, Except.toBool] at h

/-- C4 (witness): instantiating the amended theorem at the default position
with a black-king promotion certificate. -/
theorem C4_amended_witness :
    ((stateOfFen DEFAULT_FEN).make_promotion sqE2 sqE3 WHITE_QUEEN).1.isOk =
        true ∧
    ((stateOfFen DEFAULT_FEN).make_promotion sqE2 sqE3
        BLACK_KING).2.board.get_sq sqE3 = some BLACK_KING :=
  C4_amended_promotion_piece_ignored (stateOfFen DEFAULT_FEN) sqE2 sqE3
    BLACK_KING WHITE_QUEEN (by decide)

/-- C5 (counterexample): every reachable state is claimed to keep exactly one
king per color.  From `k6R/8/8/8/8/8/8/7K w - - 0 1` the accepted rook move
H8xA8 captures the black king, leaving zero black kings. -/
theorem C5_accepted_move_captures_king :
    GameState.try_from_fen "k6R/8/8/8/8/8/8/7K w - - 0 1" =
        some (stateOfFen "k6R/8/8/8/8/8/8/7K w - - 0 1") ∧
    ((stateOfFen "k6R/8/8/8/8/8/8/7K w - - 0 1").make_move sqH8 sqA8).1 =
        Except.ok (some BLACK_KING) ∧
    ((stateOfFen "k6R/8/8/8/8/8/8/7K w - - 0 1").make_move sqH8
        sqA8).2.board.count_pieces BLACK_KING = 0 := by
  refine ⟨by decide, by decide, by decide⟩

/-- C5 (amended): the construction half of the claim — every state
successfully produced by `try_from_fen` has exactly one king of each color
(enforced by the explicit count check); accepted moves do not preserve this in
general. -/
theorem C5_amended_construction_one_king_each (fen : String) (gs : GameState)
    (h : GameState.try_from_fen fen = some gs) :
    gs.board.count_pieces WHITE_KING = 1 ∧ gs.board.count_pieces BLACK_KING = 1 := by
  simp only [GameState.try_from_fen] at h
  repeat' split at h
  all_goals simp_all
  subst h
  simp_all

/-- C5 (witness): the default position parses and the theorem applies. -/
theorem C5_amended_witness :
    (stateOfFen DEFAULT_FEN).board.count_pieces WHITE_KING = 1 ∧
    (stateOfFen DEFAULT_FEN).board.count_pieces BLACK_KING = 1 :=
  C5_amended_construction_one_king_each DEFAULT_FEN (stateOfFen DEFAULT_FEN)
    (by decide)

/-- C6: a null move (`from == to`) is claimed to always fail.  With the white
king already on g1 and the `K` right still set (`4k3/8/8/8/8/8/8/6KR w K - 0 1`),
`make_move(G1, G1)` reaches the king-side castling branch (destination column
G, rank 1), is accepted, and teleports the h1 rook to f1. -/
theorem C6_null_move_accepted_by_castle_branch :
    GameState.try_from_fen "4k3/8/8/8/8/8/8/6KR w K - 0 1" =
        some (stateOfFen "4k3/8/8/8/8/8/8/6KR w K - 0 1") ∧
    ((stateOfFen "4k3/8/8/8/8/8/8/6KR w K - 0 1").make_move sqG1 sqG1).1 =
        Except.ok none ∧
    ((stateOfFen "4k3/8/8/8/8/8/8/6KR w K - 0 1").make_move sqG1
        sqG1).2.board.get_sq sqF1 = some WHITE_ROOK ∧
    ((stateOfFen "4k3/8/8/8/8/8/8/6KR w K - 0 1").make_move sqG1
        sqG1).2.board.get_sq sqH1 = none := by
  refine ⟨by decide, by decide, by decide, by decide⟩

theorem pawn_attack_geometry :
    ∀ (c : Color) (f i : Square), (BitBoard.pawn_attacks f c).testBit i.val = true →
      i.val % 8 ≠ f.val % 8 ∧
      (c = Color.White → i.val / 8 = f.val / 8 + 1) ∧
      (c = Color.Black → f.val / 8 = i.val / 8 + 1) := by decide

theorem Board.clear_sq_fst (b : Board) (sq : Square) :
    (b.clear_sq sq).1 = b.mailbox sq := by
  simp only [Board.clear_sq, MailBox.clear_sq]
  split <;> simp_all

theorem Board.clear_sq_mailbox (b : Board) (sq : Square) :
    (b.clear_sq sq).2.mailbox = Function.update b.mailbox sq none := by
  simp only [Board.clear_sq, MailBox.clear_sq]
  split
  · rfl
  · simp [Board.mailbox_clear_piece_board]

theorem Board.set_sq_fst (b : Board) (sq : Square) (p : Piece) :
    (b.set_sq sq p).1 = b.mailbox sq := rfl

theorem Board.set_sq_mailbox (b : Board) (sq : Square) (p : Piece) :
    (b.set_sq sq p).2.mailbox = Function.update b.mailbox sq (some p) := by
  simp only [Board.set_sq, MailBox.set_sq]
  split
  · simp [Board.mailbox_set_piece_board]
  · simp [Board.mailbox_set_piece_board, Board.mailbox_clear_piece_board]

theorem Board.move_piece_fst_some (b : Board) (fr tsq : Square) (p : Piece)
    (h : b.mailbox fr = some p) :
    (b.move_piece fr tsq).1 = Function.update b.mailbox fr none tsq := by
  simp only [Board.move_piece, Board.clear_sq_fst, h]
  simp [Board.set_sq_fst, Board.clear_sq_mailbox]

theorem Board.move_piece_mailbox_some (b : Board) (fr tsq : Square) (p : Piece)
    (h : b.mailbox fr = some p) :
    (b.move_piece fr tsq).2.mailbox =
      Function.update (Function.update b.mailbox fr none) tsq (some p) := by
  simp only [Board.move_piece, Board.clear_sq_fst, h]
  simp [Board.set_sq_mailbox, Board.clear_sq_mailbox]

theorem GameState.pawn_move_tail_board (s : GameState) (fr tsq : Square) :
    (s.pawn_move_tail fr tsq).board = s.board := rfl

theorem Square.col_from_coords (c : Column) (r : Row) :
    (Square.from_coords c r).col = c := by
  apply Fin.ext
  simp only [Square.from_coords, Square.col]
  omega

theorem Square.row_from_coords (c : Column) (r : Row) :
    (Square.from_coords c r).row = r := by
  apply Fin.ext
  simp only [Square.from_coords, Square.row]
  omega

/-- C7: an en-passant capture through `make_move` — a pawn move whose
destination is not an ordinary `pawn_moves` destination — is accepted only
when the destination equals the current en-passant target and lies in the
pawn's diagonal-attack pattern, and on acceptance the piece removed (and
returned) is the one on the square (to's column, from's row), not anything on
the destination square, which instead receives the moving pawn. -/
theorem C7_en_passant_capture (s : GameState) (fr tsq : Square)
    (cap : Option Piece) (s2 : GameState)
    (hp : s.board.get_sq fr = some ⟨s.turn, .Pawn⟩)
    (hm : (s.board.pawn_moves fr s.turn).contains tsq = false)
    (h : s.make_move fr tsq = (Except.ok cap, s2)) :
    s.ep_square = some tsq ∧
    (BitBoard.pawn_attacks fr s.turn).contains tsq = true ∧
    cap = s.board.get_sq (Square.from_coords tsq.col fr.row) ∧
    s2.board.get_sq (Square.from_coords tsq.col fr.row) = none ∧
    s2.board.get_sq tsq = some ⟨s.turn, .Pawn⟩ := by
  simp only [GameState.make_move, hp, ne_eq, not_true_eq_false, if_false] at h
  split at h
  · simp at h
  · rename_i captured heq
    rw [Prod.ext_iff] at h
    obtain ⟨h1, h2⟩ := h
    simp only [Except.ok.injEq] at h1
    subst h1
    -- analyze make_pawn_move
    simp only [GameState.make_pawn_move, hm, Bool.false_eq_true, if_false] at heq h2
    rcases he : s.ep_square with _ | ep
    · simp [he] at heq
    · simp only [he] at heq h2
      by_cases hcnd : tsq = ep ∧ (BitBoard.pawn_attacks fr s.turn).contains tsq = true
      · simp only [if_pos hcnd] at heq h2
        by_cases hchk :
            ((s.board.move_piece fr tsq).2.clear_sq
              (Square.from_coords tsq.col fr.row)).2.is_in_check s.turn = true
        · simp [hchk] at heq
        · simp only [Bool.not_eq_true] at hchk
          simp only [hchk, Bool.false_eq_true, if_false, Except.ok.injEq] at heq h2
          -- geometry facts
          have hgeo := pawn_attack_geometry s.turn fr tsq hcnd.2
          have hmb : s.board.mailbox fr = some ⟨s.turn, .Pawn⟩ := hp
          have hcapfr : Square.from_coords tsq.col fr.row ≠ fr := by
            intro heq2
            have := congrArg Square.col heq2
            rw [Square.col_from_coords] at this
            have hv := congrArg Fin.val this
            simp [Square.col] at hv
            exact hgeo.1 hv
          have hcaptsq : Square.from_coords tsq.col fr.row ≠ tsq := by
            intro hcq
            have := congrArg Square.row hcq
            rw [Square.row_from_coords] at this
            have hv := congrArg Fin.val this
            simp [Square.row] at hv
            rcases hgeo.2 with ⟨hw, hb⟩
            cases hturn : s.turn
            · have := hw hturn
              omega
            · have := hb hturn
              omega
          refine ⟨by simp [he, hcnd.1], hcnd.2, ?_, ?_, ?_⟩
          · -- cap = original piece at the capture square
            rw [← heq, Board.clear_sq_fst,
              Board.move_piece_mailbox_some s.board fr tsq _ hmb,
              Function.update_noteq hcaptsq, Function.update_noteq hcapfr]
            rfl
          · rw [← h2]
            simp only [GameState.end_move_board, GameState.pawn_move_tail_board,
              Board.get_sq, MailBox.get_sq]
            rw [Board.clear_sq_mailbox, Function.update_same]
          · rw [← h2]
            simp only [GameState.end_move_board, GameState.pawn_move_tail_board,
              Board.get_sq, MailBox.get_sq]
            rw [Board.clear_sq_mailbox, Function.update_noteq (Ne.symm hcaptsq),
              Board.move_piece_mailbox_some s.board fr tsq _ hmb,
              Function.update_same]
      · simp [hcnd] at heq

/-- C7 (witness): the spec scenario — from
`4k3/8/8/3pP3/8/8/8/4K3 w - d6 0 1`, `make_move(E5, D6)` succeeds, returns the
black pawn from d5, and leaves d5 empty with the white pawn on d6. -/
theorem C7_witness :
    (stateOfFen "4k3/8/8/3pP3/8/8/8/4K3 w - d6 0 1").ep_square = some sqD6 ∧
    (BitBoard.pawn_attacks sqE5
      (stateOfFen "4k3/8/8/3pP3/8/8/8/4K3 w - d6 0 1").turn).contains sqD6 = true ∧
    some BLACK_PAWN =
      (stateOfFen "4k3/8/8/3pP3/8/8/8/4K3 w - d6 0 1").board.get_sq
        (Square.from_coords sqD6.col sqE5.row) ∧
    ((stateOfFen "4k3/8/8/3pP3/8/8/8/4K3 w - d6 0 1").make_move sqE5
        sqD6).2.board.get_sq (Square.from_coords sqD6.col sqE5.row) = none ∧
    ((stateOfFen "4k3/8/8/3pP3/8/8/8/4K3 w - d6 0 1").make_move sqE5
        sqD6).2.board.get_sq sqD6 =
      some ⟨(stateOfFen "4k3/8/8/3pP3/8/8/8/4K3 w - d6 0 1").turn, .Pawn⟩ :=
  C7_en_passant_capture (stateOfFen "4k3/8/8/3pP3/8/8/8/4K3 w - d6 0 1") sqE5 sqD6
    (some BLACK_PAWN)
    ((stateOfFen "4k3/8/8/3pP3/8/8/8/4K3 w - d6 0 1").make_move sqE5 sqD6).2
    (by decide) (by decide)
    (by rw [Prod.ext_iff]; exact ⟨by decide, rfl⟩)
/-- C8 (counterexample): the en-passant target is claimed to be set by every
accepted pawn double-push.  `make_promotion` accepts the double push E2-E4
from the default position (it never checks the destination rank) and clears
the en-passant target instead of setting it to e3. -/
theorem C8_promotion_double_push_clears_ep :
    ((stateOfFen DEFAULT_FEN).make_promotion sqE2 sqE4 WHITE_QUEEN).1 =
        Except.ok none ∧
    (stateOfFen DEFAULT_FEN).board.get_sq sqE2 = some WHITE_PAWN ∧
    (stateOfFen DEFAULT_FEN).turn = Color.White ∧
    sqE2.row = (1 : Row) ∧ sqE4.row = (3 : Row) ∧
    ((stateOfFen DEFAULT_FEN).make_promotion sqE2 sqE4 WHITE_QUEEN).2.ep_square =
        none := by
  refine ⟨by decide, by decide, by decide, by decide, by decide, by decide⟩

/-- C10: `is_in_check` ranges over the (possibly empty) set of king squares:
when a color has no king on the board, it returns `false` rather than
failing. -/
theorem C10_no_king_means_no_check (b : Board) (c : Color)
    (hb : b.get_piece_board ⟨c, .King⟩ = 0) : b.is_in_check c = false := by
  simp [Board.is_in_check, hb, BitBoard.squaresOf, Nat.zero_testBit]

/-- C10 (witness): the empty board has no black king and is not in check. -/
theorem C10_witness :
    Board.new.get_piece_board ⟨Color.Black, .King⟩ = 0 ∧
    Board.new.is_in_check Color.Black = false :=
  ⟨by decide, C10_no_king_means_no_check Board.new Color.Black (by decide)⟩

end Chess

namespace Chess

theorem GameState.test_move_meta (s : GameState) (fr tsq : Square) :
    (s.test_move_for_check fr tsq).2.turn = s.turn ∧
    (s.test_move_for_check fr tsq).2.castle = s.castle ∧
    (s.test_move_for_check fr tsq).2.ep_square = s.ep_square ∧
    (s.test_move_for_check fr tsq).2.half_move = s.half_move ∧
    (s.test_move_for_check fr tsq).2.full_move = s.full_move := by
  simp only [GameState.test_move_for_check]
  split <;> exact ⟨rfl, rfl, rfl, rfl, rfl⟩

theorem GameState.pawn_move_tail_fields (s : GameState) (fr tsq : Square) :
    (s.pawn_move_tail fr tsq).turn = s.turn ∧
    (s.pawn_move_tail fr tsq).castle = s.castle ∧
    (s.pawn_move_tail fr tsq).full_move = s.full_move ∧
    (s.pawn_move_tail fr tsq).half_move = 0 ∧
    (s.pawn_move_tail fr tsq).ep_square =
      (if (s.turn = Color.White ∧ fr.row = (1 : Row) ∧ tsq.row = (3 : Row)) ∨
          (s.turn = Color.Black ∧ fr.row = (6 : Row) ∧ tsq.row = (4 : Row)) then
        some (Square.from_coords tsq.col
          (if s.turn = Color.White then (2 : Row) else (5 : Row)))
      else none) := by
  cases hturn : s.turn
  all_goals
    refine ⟨?_, ?_, ?_, ?_, ?_⟩ <;> simp [GameState.pawn_move_tail, hturn]

theorem GameState.ext_fields (a b : GameState) (h1 : a.board = b.board)
    (h2 : a.turn = b.turn) (h3 : a.castle = b.castle)
    (h4 : a.ep_square = b.ep_square) (h5 : a.half_move = b.half_move)
    (h6 : a.full_move = b.full_move) : a = b := by
  cases a; cases b; simp_all

theorem GameState.test_move_eta (s : GameState) (fr tsq : Square) :
    (s.test_move_for_check fr tsq).2 =
      { s with board := (s.test_move_for_check fr tsq).2.board } := by
  have hm := GameState.test_move_meta s fr tsq
  exact GameState.ext_fields _ _ rfl hm.1 hm.2.1 hm.2.2.1 hm.2.2.2.1 hm.2.2.2.2

theorem GameState.make_pawn_move_ok_shape (s : GameState) (fr tsq : Square)
    (cap : Option Piece) (h : (s.make_pawn_move fr tsq).1 = .ok cap) :
    ∃ b2, s.make_pawn_move fr tsq =
      (.ok cap, ({ s with board := b2 }).pawn_move_tail fr tsq) := by
  by_cases hc1 : (s.board.pawn_moves fr s.turn).contains tsq = true
  · rcases ht : (s.test_move_for_check fr tsq).1 with e | captured
    · simp [GameState.make_pawn_move, hc1, ht] at h
    · by_cases hrow : tsq.row =
          (match (s.test_move_for_check fr tsq).2.turn with
           | Color.White => (7 : Row) | Color.Black => (0 : Row))
      · simp [GameState.make_pawn_move, hc1, ht, hrow] at h
      · simp only [GameState.make_pawn_move, hc1, ht, if_true, if_neg hrow] at h ⊢
        refine ⟨(s.test_move_for_check fr tsq).2.board, ?_⟩
        rw [← GameState.test_move_eta]
        simp only [Except.ok.injEq] at h
        rw [h]
  · simp only [Bool.not_eq_true] at hc1
    rcases he : s.ep_square with _ | ep
    · simp [GameState.make_pawn_move, hc1, he] at h
    · by_cases hcnd1 : tsq = ep
      · subst hcnd1
        by_cases hcnd2 : (BitBoard.pawn_attacks fr s.turn).contains tsq = true
        · by_cases hchk : ((s.board.move_piece fr tsq).2.clear_sq
              (Square.from_coords tsq.col fr.row)).2.is_in_check s.turn = true
          · simp [GameState.make_pawn_move, hc1, he, hcnd2, hchk] at h
          · simp only [Bool.not_eq_true] at hchk
            simp only [GameState.make_pawn_move, hc1, Bool.false_eq_true, if_false,
              he, hcnd2, and_true, eq_self_iff_true, if_true, hchk,
              Except.ok.injEq] at h ⊢
            exact ⟨((s.board.move_piece fr tsq).2.clear_sq
              (Square.from_coords tsq.col fr.row)).2, by rw [h]⟩
        · simp [GameState.make_pawn_move, hc1, he, hcnd2] at h
      · simp [GameState.make_pawn_move, hc1, he, hcnd1] at h

theorem GameState.non_pawn_tail_eq (a b : GameState) (cap : Option Piece)
    (h : a = b) : GameState.non_pawn_tail a cap = GameState.non_pawn_tail b cap := by
  rw [h]

theorem GameState.make_king_move_ok_shape (s : GameState) (fr tsq : Square)
    (cap : Option Piece) (h : (s.make_king_move fr tsq).1 = .ok cap) :
    ∃ b2 c2, s.make_king_move fr tsq =
      (.ok cap, GameState.non_pawn_tail { s with board := b2, castle := c2 } cap) := by
  have h62 : ((6 : Column) = (2 : Column)) = False := by decide
  by_cases hnc : (BitBoard.king_moves fr &&&
      BitBoard.bbNot (s.board.occupied_color s.turn)).contains tsq = true
  · rcases ht : (s.test_move_for_check fr tsq).1 with e | captured
    · simp [GameState.make_king_move, hnc, ht] at h
    · have hm := GameState.test_move_meta s fr tsq
      simp only [GameState.make_king_move, hnc, if_true, ht, Except.ok.injEq] at h ⊢
      refine ⟨(s.test_move_for_check fr tsq).2.board,
        Castle.remove_castle s.castle s.turn, ?_⟩
      rw [h]
      refine congrArg _ (GameState.non_pawn_tail_eq _ _ _ ?_)
      refine GameState.ext_fields _ _ ?_ ?_ ?_ ?_ ?_ ?_ <;>
        simp [hm.1, hm.2.1, hm.2.2.1, hm.2.2.2.1, hm.2.2.2.2]
  · simp only [Bool.not_eq_true] at hnc
    by_cases hq : tsq.col = (2 : Column) ∧ tsq.row =
        (match s.turn with | Color.White => (0 : Row) | Color.Black => (7 : Row))
    · by_cases hcr : s.castle.can_queen_castle s.turn = true
      · by_cases hatt : (BitBoard.squaresOf (BitBoard.straight_ray fr
            (Square.from_coords 0
              (match s.turn with | Color.White => (0 : Row) | Color.Black => (7 : Row))))).any
            (fun square => s.board.is_square_attacked square s.turn) = true
        · simp [GameState.make_king_move, hnc, hq, hcr, hatt] at h
        · simp only [Bool.not_eq_true] at hatt
          simp only [GameState.make_king_move, hnc, Bool.false_eq_true, if_false,
            hq, and_true, eq_self_iff_true, if_true, hcr, hatt,
            Except.ok.injEq] at h ⊢
          exact ⟨_, Castle.remove_castle s.castle s.turn, by rw [← h]⟩
      · simp [GameState.make_king_move, hnc, hq, hcr] at h
    · by_cases hg : tsq.col = (6 : Column) ∧ tsq.row =
          (match s.turn with | Color.White => (0 : Row) | Color.Black => (7 : Row))
      · by_cases hcr : s.castle.can_king_castle s.turn = true
        · by_cases hatt : (BitBoard.squaresOf (BitBoard.straight_ray fr
              (Square.from_coords 7
                (match s.turn with | Color.White => (0 : Row) | Color.Black => (7 : Row))))).any
              (fun square => s.board.is_square_attacked square s.turn) = true
          · simp [GameState.make_king_move, hnc, hg, h62, hcr, hatt] at h
          · simp only [Bool.not_eq_true] at hatt
            simp only [GameState.make_king_move, hnc, Bool.false_eq_true, if_false,
              hg, h62, and_true, false_and, eq_self_iff_true, if_true, hcr, hatt,
              Except.ok.injEq] at h ⊢
            exact ⟨_, Castle.remove_castle s.castle s.turn, by rw [← h]⟩
        · simp [GameState.make_king_move, hnc, hg, h62, hcr] at h
      · simp [GameState.make_king_move, hnc, hq, hg] at h

theorem GameState.make_generic_move_ok_shape (s : GameState) (figure : Figure)
    (fr tsq : Square) (cap : Option Piece)
    (h : (s.make_generic_move figure fr tsq).1 = .ok cap) :
    ∃ b2 c2, s.make_generic_move figure fr tsq =
      (.ok cap, GameState.non_pawn_tail { s with board := b2, castle := c2 } cap) := by
  by_cases hps : s.board.is_pseudo figure fr tsq s.turn = true
  · rcases ht : (s.test_move_for_check fr tsq).1 with e | captured
    · simp [GameState.make_generic_move, hps, ht] at h
    · have hm := GameState.test_move_meta s fr tsq
      simp only [GameState.make_generic_move, hps, if_true, ht, Except.ok.injEq,
        hm.1, hm.2.1] at h ⊢
      subst h
      by_cases hfig : figure = Figure.Rook
      · subst hfig
        simp only [reduceIte]
        by_cases hk : fr = (match s.turn with
            | Color.White => (sqA1, sqH1) | Color.Black => (sqA8, sqH8)).2
        · rw [if_pos hk]
          refine ⟨(s.test_move_for_check fr tsq).2.board,
            Castle.remove_king_castle s.castle s.turn, ?_⟩
          refine congrArg _ (GameState.non_pawn_tail_eq _ _ _ ?_)
          refine GameState.ext_fields _ _ ?_ ?_ ?_ ?_ ?_ ?_ <;>
            simp [hm.1, hm.2.1, hm.2.2.1, hm.2.2.2.1, hm.2.2.2.2]
        · by_cases hq : fr = (match s.turn with
              | Color.White => (sqA1, sqH1) | Color.Black => (sqA8, sqH8)).1
          · rw [if_neg hk, if_pos hq]
            refine ⟨(s.test_move_for_check fr tsq).2.board,
              Castle.remove_queen_castle s.castle s.turn, ?_⟩
            refine congrArg _ (GameState.non_pawn_tail_eq _ _ _ ?_)
            refine GameState.ext_fields _ _ ?_ ?_ ?_ ?_ ?_ ?_ <;>
              simp [hm.1, hm.2.1, hm.2.2.1, hm.2.2.2.1, hm.2.2.2.2]
          · rw [if_neg hk, if_neg hq]
            refine ⟨(s.test_move_for_check fr tsq).2.board, s.castle, ?_⟩
            refine congrArg _ (GameState.non_pawn_tail_eq _ _ _ ?_)
            refine GameState.ext_fields _ _ ?_ ?_ ?_ ?_ ?_ ?_ <;>
              simp [hm.1, hm.2.1, hm.2.2.1, hm.2.2.2.1, hm.2.2.2.2]
      · rw [if_neg hfig]
        refine ⟨(s.test_move_for_check fr tsq).2.board, s.castle, ?_⟩
        refine congrArg _ (GameState.non_pawn_tail_eq _ _ _ ?_)
        refine GameState.ext_fields _ _ ?_ ?_ ?_ ?_ ?_ ?_ <;>
          simp [hm.1, hm.2.1, hm.2.2.1, hm.2.2.2.1, hm.2.2.2.2]
  · simp [GameState.make_generic_move, hps] at h
end Chess


namespace Chess

theorem GameState.end_move_eq (a b : GameState) (x : Square) (h : a = b) :
    a.end_move x = b.end_move x := by rw [h]

theorem GameState.end_move_fields (s : GameState) (x : Square) :
    (s.end_move x).turn = s.turn.not ∧
    (s.end_move x).full_move =
      (if s.turn = Color.Black then (s.full_move + 1) % 65536 else s.full_move) ∧
    (s.end_move x).half_move = s.half_move ∧
    (s.end_move x).ep_square = s.ep_square :=
  ⟨rfl, rfl, rfl, rfl⟩

theorem GameState.non_pawn_tail_fields (s : GameState) (cap : Option Piece) :
    (GameState.non_pawn_tail s cap).turn = s.turn ∧
    (GameState.non_pawn_tail s cap).castle = s.castle ∧
    (GameState.non_pawn_tail s cap).full_move = s.full_move ∧
    (GameState.non_pawn_tail s cap).ep_square = none ∧
    (GameState.non_pawn_tail s cap).half_move =
      (if cap.isSome then 0 else (s.half_move + 1) % 65536) := by
  rcases cap with _ | c <;> exact ⟨rfl, rfl, rfl, rfl, rfl⟩

theorem GameState.make_promotion_ok_shape (s : GameState) (fr tsq : Square)
    (p : Piece) (cap : Option Piece) (h : (s.make_promotion fr tsq p).1 = .ok cap) :
    ∃ b2, s.make_promotion fr tsq p =
      (.ok cap,
        ({ s with board := b2, half_move := 0, ep_square := none }).end_move tsq) := by
  rcases hg : s.board.get_sq fr with _ | ⟨c, f⟩
  · simp [GameState.make_promotion, hg] at h
  · cases f
    case Pawn =>
      by_cases hc : c = s.turn
      · subst hc
        by_cases hmv : (s.board.pawn_moves fr s.turn).contains tsq = true
        · rcases ht : (s.test_move_for_check fr tsq).1 with e | captured
          · simp [GameState.make_promotion, hg, hmv, ht] at h
          · have hm := GameState.test_move_meta s fr tsq
            simp only [GameState.make_promotion, hg, ne_eq, eq_self_iff_true,
              not_true_eq_false, if_false, hmv, if_true, ht,
              Except.ok.injEq] at h ⊢
            subst h
            refine ⟨((s.test_move_for_check fr tsq).2.board.set_sq tsq p).2, ?_⟩
            refine congrArg _ (GameState.end_move_eq _ _ _ ?_)
            refine GameState.ext_fields _ _ ?_ ?_ ?_ ?_ ?_ ?_ <;>
              simp [hm.1, hm.2.1, hm.2.2.1, hm.2.2.2.1, hm.2.2.2.2]
        · simp [GameState.make_promotion, hg, hmv] at h
      · simp [GameState.make_promotion, hg, hc] at h
    all_goals simp [GameState.make_promotion, hg] at h

end Chess

namespace Chess

/-- C8 (amended): for every accepted `make_move`, the turn flips, the
full-move counter is incremented exactly for Black, the half-move clock
resets to 0 on a capture or a pawn move and is incremented otherwise, and the
en-passant target is set exactly by a pawn double-push and cleared otherwise;
for every accepted `make_promotion` the same turn/full-move rules hold but the
half-move clock is always reset and the en-passant target is always cleared
(even when the promotion call itself performed a double push, which is the
corrected detail). -/
theorem C8_amended_bookkeeping :
    (∀ (s : GameState) (fr tsq : Square) (cap : Option Piece) (s2 : GameState),
      s.make_move fr tsq = (Except.ok cap, s2) →
      s.half_move + 1 < 65536 → s.full_move + 1 < 65536 →
      s2.turn = s.turn.not ∧
      s2.full_move =
        (if s.turn = Color.Black then s.full_move + 1 else s.full_move) ∧
      s2.half_move =
        (if cap.isSome ∨ s.board.get_sq fr = some ⟨s.turn, .Pawn⟩ then 0
         else s.half_move + 1) ∧
      s2.ep_square =
        (if s.board.get_sq fr = some ⟨s.turn, .Pawn⟩ ∧
            ((s.turn = Color.White ∧ fr.row = (1 : Row) ∧ tsq.row = (3 : Row)) ∨
             (s.turn = Color.Black ∧ fr.row = (6 : Row) ∧ tsq.row = (4 : Row))) then
          some (Square.from_coords tsq.col
            (if s.turn = Color.White then (2 : Row) else (5 : Row)))
         else none)) ∧
    (∀ (s : GameState) (fr tsq : Square) (p : Piece) (cap : Option Piece)
        (s2 : GameState),
      s.make_promotion fr tsq p = (Except.ok cap, s2) →
      s.full_move + 1 < 65536 →
      s2.turn = s.turn.not ∧
      s2.full_move =
        (if s.turn = Color.Black then s.full_move + 1 else s.full_move) ∧
      s2.half_move = 0 ∧ s2.ep_square = none) := by
  constructor
  · intro s fr tsq cap s2 h hh hf
    rcases hg : s.board.get_sq fr with _ | ⟨c, figure⟩
    · simp [GameState.make_move, hg, Prod.ext_iff] at h
    · by_cases hc : c = s.turn
      case neg => simp [GameState.make_move, hg, hc, Prod.ext_iff] at h
      case pos =>
      subst hc
      cases figure
      case Pawn =>
        rcases hr : (s.make_pawn_move fr tsq).1 with e | captured
        · simp [GameState.make_move, hg, hr, Prod.ext_iff] at h
        · obtain ⟨b2, hsh⟩ := GameState.make_pawn_move_ok_shape s fr tsq captured hr
          simp only [GameState.make_move, hg, ne_eq, eq_self_iff_true,
            not_true_eq_false, if_false, hr, Prod.ext_iff, Except.ok.injEq] at h
          obtain ⟨h1, h2⟩ := h
          subst h1
          have hT := GameState.pawn_move_tail_fields { s with board := b2 } fr tsq
          rw [hsh] at h2
          subst h2
          have hE := GameState.end_move_fields
            (({ s with board := b2 }).pawn_move_tail fr tsq) tsq
          refine ⟨?_, ?_, ?_, ?_⟩
          · rw [hE.1, hT.1]
          · rw [hE.2.1, hT.1, hT.2.2.1]
            by_cases hb : s.turn = Color.Black
            · simp [hb, Nat.mod_eq_of_lt hf]
            · simp [hb]
          · rw [hE.2.2.1, hT.2.2.2.1]
            simp [hg]
          · rw [hE.2.2.2, hT.2.2.2.2]
            simp [hg]
      case King =>
        rcases hr : (s.make_king_move fr tsq).1 with e | captured
        · simp [GameState.make_move, hg, hr, Prod.ext_iff] at h
        · obtain ⟨b2, c2, hsh⟩ := GameState.make_king_move_ok_shape s fr tsq captured hr
          simp only [GameState.make_move, hg, ne_eq, eq_self_iff_true,
            not_true_eq_false, if_false, hr, Prod.ext_iff, Except.ok.injEq] at h
          obtain ⟨h1, h2⟩ := h
          subst h1
          have hT := GameState.non_pawn_tail_fields
            { s with board := b2, castle := c2 } captured
          rw [hsh] at h2
          subst h2
          have hE := GameState.end_move_fields
            (GameState.non_pawn_tail { s with board := b2, castle := c2 } captured) tsq
          have hnp : (some (Piece.mk s.turn Figure.King) =
              some (Piece.mk s.turn Figure.Pawn)) = False := by simp
          refine ⟨?_, ?_, ?_, ?_⟩
          · rw [hE.1, hT.1]
          · rw [hE.2.1, hT.1, hT.2.2.1]
            by_cases hb : s.turn = Color.Black
            · simp [hb, Nat.mod_eq_of_lt hf]
            · simp [hb]
          · rw [hE.2.2.1, hT.2.2.2.2]
            rcases captured with _ | cp
            · simp [hg, Nat.mod_eq_of_lt hh]
            · simp [hg]
          · rw [hE.2.2.2, hT.2.2.2.1]
            simp [hg]
      case Knight =>
        rcases hr : (s.make_generic_move .Knight fr tsq).1 with e | captured
        · simp [GameState.make_move, hg, hr, Prod.ext_iff] at h
        · obtain ⟨b2, c2, hsh⟩ :=
            GameState.make_generic_move_ok_shape s .Knight fr tsq captured hr
          simp only [GameState.make_move, hg, ne_eq, eq_self_iff_true,
            not_true_eq_false, if_false, hr, Prod.ext_iff, Except.ok.injEq] at h
          obtain ⟨h1, h2⟩ := h
          subst h1
          have hT := GameState.non_pawn_tail_fields
            { s with board := b2, castle := c2 } captured
          rw [hsh] at h2
          subst h2
          have hE := GameState.end_move_fields
            (GameState.non_pawn_tail { s with board := b2, castle := c2 } captured) tsq
          refine ⟨?_, ?_, ?_, ?_⟩
          · rw [hE.1, hT.1]
          · rw [hE.2.1, hT.1, hT.2.2.1]
            by_cases hb : s.turn = Color.Black
            · simp [hb, Nat.mod_eq_of_lt hf]
            · simp [hb]
          · rw [hE.2.2.1, hT.2.2.2.2]
            rcases captured with _ | cp
            · simp [hg, Nat.mod_eq_of_lt hh]
            · simp [hg]
          · rw [hE.2.2.2, hT.2.2.2.1]
            simp [hg]
      case Rook =>
        rcases hr : (s.make_generic_move .Rook fr tsq).1 with e | captured
        · simp [GameState.make_move, hg, hr, Prod.ext_iff] at h
        · obtain ⟨b2, c2, hsh⟩ :=
            GameState.make_generic_move_ok_shape s .Rook fr tsq captured hr
          simp only [GameState.make_move, hg, ne_eq, eq_self_iff_true,
            not_true_eq_false, if_false, hr, Prod.ext_iff, Except.ok.injEq] at h
          obtain ⟨h1, h2⟩ := h
          subst h1
          have hT := GameState.non_pawn_tail_fields
            { s with board := b2, castle := c2 } captured
          rw [hsh] at h2
          subst h2
          have hE := GameState.end_move_fields
            (GameState.non_pawn_tail { s with board := b2, castle := c2 } captured) tsq
          refine ⟨?_, ?_, ?_, ?_⟩
          · rw [hE.1, hT.1]
          · rw [hE.2.1, hT.1, hT.2.2.1]
            by_cases hb : s.turn = Color.Black
            · simp [hb, Nat.mod_eq_of_lt hf]
            · simp [hb]
          · rw [hE.2.2.1, hT.2.2.2.2]
            rcases captured with _ | cp
            · simp [hg, Nat.mod_eq_of_lt hh]
            · simp [hg]
          · rw [hE.2.2.2, hT.2.2.2.1]
            simp [hg]
      case Bishop =>
        rcases hr : (s.make_generic_move .Bishop fr tsq).1 with e | captured
        · simp [GameState.make_move, hg, hr, Prod.ext_iff] at h
        · obtain ⟨b2, c2, hsh⟩ :=
            GameState.make_generic_move_ok_shape s .Bishop fr tsq captured hr
          simp only [GameState.make_move, hg, ne_eq, eq_self_iff_true,
            not_true_eq_false, if_false, hr, Prod.ext_iff, Except.ok.injEq] at h
          obtain ⟨h1, h2⟩ := h
          subst h1
          have hT := GameState.non_pawn_tail_fields
            { s with board := b2, castle := c2 } captured
          rw [hsh] at h2
          subst h2
          have hE := GameState.end_move_fields
            (GameState.non_pawn_tail { s with board := b2, castle := c2 } captured) tsq
          refine ⟨?_, ?_, ?_, ?_⟩
          · rw [hE.1, hT.1]
          · rw [hE.2.1, hT.1, hT.2.2.1]
            by_cases hb : s.turn = Color.Black
            · simp [hb, Nat.mod_eq_of_lt hf]
            · simp [hb]
          · rw [hE.2.2.1, hT.2.2.2.2]
            rcases captured with _ | cp
            · simp [hg, Nat.mod_eq_of_lt hh]
            · simp [hg]
          · rw [hE.2.2.2, hT.2.2.2.1]
            simp [hg]
      case Queen =>
        rcases hr : (s.make_generic_move .Queen fr tsq).1 with e | captured
        · simp [GameState.make_move, hg, hr, Prod.ext_iff] at h
        · obtain ⟨b2, c2, hsh⟩ :=
            GameState.make_generic_move_ok_shape s .Queen fr tsq captured hr
          simp only [GameState.make_move, hg, ne_eq, eq_self_iff_true,
            not_true_eq_false, if_false, hr, Prod.ext_iff, Except.ok.injEq] at h
          obtain ⟨h1, h2⟩ := h
          subst h1
          have hT := GameState.non_pawn_tail_fields
            { s with board := b2, castle := c2 } captured
          rw [hsh] at h2
          subst h2
          have hE := GameState.end_move_fields
            (GameState.non_pawn_tail { s with board := b2, castle := c2 } captured) tsq
          refine ⟨?_, ?_, ?_, ?_⟩
          · rw [hE.1, hT.1]
          · rw [hE.2.1, hT.1, hT.2.2.1]
            by_cases hb : s.turn = Color.Black
            · simp [hb, Nat.mod_eq_of_lt hf]
            · simp [hb]
          · rw [hE.2.2.1, hT.2.2.2.2]
            rcases captured with _ | cp
            · simp [hg, Nat.mod_eq_of_lt hh]
            · simp [hg]
          · rw [hE.2.2.2, hT.2.2.2.1]
            simp [hg]
  · intro s fr tsq p cap s2 h hf
    have hr : (s.make_promotion fr tsq p).1 = Except.ok cap := by rw [h]
    obtain ⟨b2, hsh⟩ := GameState.make_promotion_ok_shape s fr tsq p cap hr
    rw [hsh] at h
    have h2 := (Prod.ext_iff.mp h).2
    simp only [] at h2
    subst h2
    have hE := GameState.end_move_fields
      { s with board := b2, half_move := 0, ep_square := none } tsq
    refine ⟨hE.1, ?_, hE.2.2.1, hE.2.2.2⟩
    rw [hE.2.1]
    by_cases hb : s.turn = Color.Black
    · simp [hb, Nat.mod_eq_of_lt hf]
    · simp [hb]



/-- C8 (witness): the spec scenario — after `make_move(E2, E3)` from the
default position the turn is Black, the full-move counter stays 1, the
half-move clock resets to 0, and no en-passant target is set. -/
theorem C8_amended_witness :
    ((stateOfFen DEFAULT_FEN).make_move sqE2 sqE3).2.turn = Color.Black ∧
    ((stateOfFen DEFAULT_FEN).make_move sqE2 sqE3).2.full_move = 1 ∧
    ((stateOfFen DEFAULT_FEN).make_move sqE2 sqE3).2.half_move = 0 ∧
    ((stateOfFen DEFAULT_FEN).make_move sqE2 sqE3).2.ep_square = none := by
  have hc := C8_amended_bookkeeping.1 (stateOfFen DEFAULT_FEN) sqE2 sqE3 none
    ((stateOfFen DEFAULT_FEN).make_move sqE2 sqE3).2
    (by rw [Prod.ext_iff]; exact ⟨by decide, rfl⟩) (by decide) (by decide)
  refine ⟨?_, ?_, ?_, ?_⟩
  · rw [hc.1]; decide
  · rw [hc.2.1]; decide
  · rw [hc.2.2.1]; decide
  · rw [hc.2.2.2]; decide

end Chess

namespace Chess

theorem testBit_high {x : Nat} (hx : x < U64) {i : Nat} (hi : 64 ≤ i) :
    x.testBit i = false :=
  Nat.testBit_lt_two_pow
    (lt_of_lt_of_le hx (Nat.pow_le_pow_right (by norm_num) hi))

theorem from_square_eq (s : Square) : BitBoard.from_square s = 2 ^ s.val := by
  simp [BitBoard.from_square, Nat.shiftLeft_eq]

theorem testBit_from_square (s : Square) (i : Nat) :
    (BitBoard.from_square s).testBit i = decide (s.val = i) := by
  rw [from_square_eq, Nat.testBit_two_pow]

theorem testBit_bbNot (b : Nat) (i : Nat) :
    (BitBoard.bbNot b).testBit i = (decide (i < 64) ^^ b.testBit i) := by
  unfold BitBoard.bbNot U64
  rw [Nat.testBit_xor, Nat.testBit_two_pow_sub_one]

theorem restoreB (x : Nat) (t : Square) (hx : x < U64)
    (ht : x.testBit t.val = true) :
    (x &&& BitBoard.bbNot (BitBoard.from_square t)) ||| BitBoard.from_square t = x := by
  apply Nat.eq_of_testBit_eq
  intro i
  simp only [Nat.testBit_lor, Nat.testBit_land, testBit_bbNot, testBit_from_square]
  by_cases hi : i < 64
  · by_cases he : t.val = i
    · subst he
      simp [ht, hi]
    · simp [he, hi]
  · have h64 : 64 ≤ i := le_of_not_lt hi
    have hxi := testBit_high hx h64
    have hti : ¬(t.val = i) := by have := t.isLt; omega
    simp [hxi, hti, hi]

theorem restoreA (x : Nat) (f t : Square) (hx : x < U64)
    (hf : x.testBit f.val = true) (ht : x.testBit t.val = false) :
    ((((x &&& BitBoard.bbNot (BitBoard.from_square f)) ||| BitBoard.from_square t) &&&
        BitBoard.bbNot (BitBoard.from_square t)) ||| BitBoard.from_square f) = x := by
  apply Nat.eq_of_testBit_eq
  intro i
  simp only [Nat.testBit_lor, Nat.testBit_land, testBit_bbNot, testBit_from_square]
  by_cases hi : i < 64
  · by_cases hfe : f.val = i
    · subst hfe
      by_cases hte : t.val = f.val
      · rw [hte] at ht
        rw [ht] at hf
        exact absurd hf (by simp)
      · simp [hf, hi, hte]
    · by_cases hte : t.val = i
      · subst hte
        simp [ht, hi, hfe]
      · simp [hi, hfe, hte]
  · have h64 : 64 ≤ i := le_of_not_lt hi
    have hxi := testBit_high hx h64
    have hfi : ¬(f.val = i) := by have := f.isLt; omega
    have hti : ¬(t.val = i) := by have := t.isLt; omega
    simp [hxi, hfi, hti, hi]

theorem restoreC (x : Nat) (f t : Square) (hx : x < U64)
    (hf : x.testBit f.val = true) (ht : x.testBit t.val = true) :
    ((((((x &&& BitBoard.bbNot (BitBoard.from_square f)) &&&
            BitBoard.bbNot (BitBoard.from_square t)) |||
          BitBoard.from_square t) &&&
        BitBoard.bbNot (BitBoard.from_square t)) |||
      BitBoard.from_square f) |||
    BitBoard.from_square t) = x := by
  apply Nat.eq_of_testBit_eq
  intro i
  simp only [Nat.testBit_lor, Nat.testBit_land, testBit_bbNot, testBit_from_square]
  by_cases hi : i < 64
  · by_cases hfe : f.val = i
    · subst hfe
      simp [hf, hi]
    · by_cases hte : t.val = i
      · subst hte
        simp [ht, hi, hfe]
      · simp [hi, hfe, hte]
  · have h64 : 64 ≤ i := le_of_not_lt hi
    have hxi := testBit_high hx h64
    have hfi : ¬(f.val = i) := by have := f.isLt; omega
    have hti : ¬(t.val = i) := by have := t.isLt; omega
    simp [hxi, hfi, hti, hi]

end Chess
namespace Chess

theorem Board.get_set_piece_bb (b : Board) (p : Piece) (v : BitBoard) (q : Piece) :
    (b.set_piece_bb p v).get_piece_board q =
      if q = p then v else b.get_piece_board q := by
  rcases p with ⟨pc, pf⟩
  rcases q with ⟨qc, qf⟩
  cases pc <;> cases pf <;> cases qc <;> cases qf <;>
    simp [Board.set_piece_bb, Board.get_piece_board, Piece.mk.injEq]

theorem Board.occ_color_set_piece_bb (b : Board) (p : Piece) (v : BitBoard)
    (c : Color) : (b.set_piece_bb p v).occupied_color c = b.occupied_color c := by
  rcases p with ⟨pc, pf⟩
  cases pc <;> cases pf <;> cases c <;> rfl

theorem Board.occupied_set_piece_bb (b : Board) (p : Piece) (v : BitBoard) :
    (b.set_piece_bb p v).occupied = b.occupied := by
  rcases p with ⟨pc, pf⟩
  cases pc <;> cases pf <;> rfl

theorem Board.wcolor_set_piece_bb (b : Board) (p : Piece) (v : BitBoard) :
    (b.set_piece_bb p v).white_pieces.color = b.white_pieces.color := by
  rcases p with ⟨pc, pf⟩
  cases pc <;> cases pf <;> rfl

theorem Board.bcolor_set_piece_bb (b : Board) (p : Piece) (v : BitBoard) :
    (b.set_piece_bb p v).black_pieces.color = b.black_pieces.color := by
  rcases p with ⟨pc, pf⟩
  cases pc <;> cases pf <;> rfl

theorem Board.get_set_occ_color (b : Board) (c : Color) (v : BitBoard) (q : Piece) :
    (b.set_occ_color c v).get_piece_board q = b.get_piece_board q := by
  rcases q with ⟨qc, qf⟩
  cases c <;> cases qc <;> cases qf <;> rfl

theorem Board.occ_color_set_occ_color (b : Board) (c : Color) (v : BitBoard)
    (d : Color) :
    (b.set_occ_color c v).occupied_color d = if d = c then v else b.occupied_color d := by
  cases c <;> cases d <;> simp [Board.set_occ_color, Board.occupied_color]

theorem Board.occupied_set_occ_color (b : Board) (c : Color) (v : BitBoard) :
    (b.set_occ_color c v).occupied = b.occupied := by
  cases c <;> rfl

theorem Board.wcolor_set_occ_color (b : Board) (c : Color) (v : BitBoard) :
    (b.set_occ_color c v).white_pieces.color = b.white_pieces.color := by
  cases c <;> rfl

theorem Board.bcolor_set_occ_color (b : Board) (c : Color) (v : BitBoard) :
    (b.set_occ_color c v).black_pieces.color = b.black_pieces.color := by
  cases c <;> rfl

theorem Board.get_upd_occupied (b : Board) (v : BitBoard) (q : Piece) :
    ({ b with occupied := v } : Board).get_piece_board q = b.get_piece_board q := by
  rcases q with ⟨qc, qf⟩
  cases qc <;> cases qf <;> rfl

theorem Board.occ_color_upd_occupied (b : Board) (v : BitBoard) (c : Color) :
    ({ b with occupied := v } : Board).occupied_color c = b.occupied_color c := by
  cases c <;> rfl

theorem Board.get_upd_mailbox (b : Board) (u : MailBox) (q : Piece) :
    ({ b with mailbox := u } : Board).get_piece_board q = b.get_piece_board q := by
  rcases q with ⟨qc, qf⟩
  cases qc <;> cases qf <;> rfl

theorem Board.occ_color_upd_mailbox (b : Board) (u : MailBox) (c : Color) :
    ({ b with mailbox := u } : Board).occupied_color c = b.occupied_color c := by
  cases c <;> rfl

theorem Board.get_clear_piece_board (b : Board) (p : Piece) (m : BitBoard)
    (q : Piece) :
    (b.clear_piece_board p m).get_piece_board q =
      if q = p then b.get_piece_board p &&& BitBoard.bbNot m
      else b.get_piece_board q := by
  simp only [Board.clear_piece_board, Board.get_upd_occupied,
    Board.get_set_occ_color, Board.get_set_piece_bb]

theorem Board.occ_color_clear_piece_board (b : Board) (p : Piece) (m : BitBoard)
    (c : Color) :
    (b.clear_piece_board p m).occupied_color c =
      if c = p.color then b.occupied_color c &&& BitBoard.bbNot m
      else b.occupied_color c := by
  simp only [Board.clear_piece_board, Board.occ_color_upd_occupied,
    Board.occ_color_set_occ_color, Board.occ_color_set_piece_bb]
  split <;> rename_i hc
  · rw [hc]
  · rfl

theorem Board.occupied_clear_piece_board (b : Board) (p : Piece) (m : BitBoard) :
    (b.clear_piece_board p m).occupied = b.occupied &&& BitBoard.bbNot m := by
  simp only [Board.clear_piece_board, Board.occupied_set_occ_color,
    Board.occupied_set_piece_bb]

theorem Board.wcolor_clear_piece_board (b : Board) (p : Piece) (m : BitBoard) :
    (b.clear_piece_board p m).white_pieces.color = b.white_pieces.color := by
  simp only [Board.clear_piece_board]
  rw [show ∀ b2 : Board, ({ b2 with occupied := b2.occupied &&& BitBoard.bbNot m } :
    Board).white_pieces.color = b2.white_pieces.color from fun _ => rfl]
  rw [Board.wcolor_set_occ_color, Board.wcolor_set_piece_bb]

theorem Board.bcolor_clear_piece_board (b : Board) (p : Piece) (m : BitBoard) :
    (b.clear_piece_board p m).black_pieces.color = b.black_pieces.color := by
  simp only [Board.clear_piece_board]
  rw [show ∀ b2 : Board, ({ b2 with occupied := b2.occupied &&& BitBoard.bbNot m } :
    Board).black_pieces.color = b2.black_pieces.color from fun _ => rfl]
  rw [Board.bcolor_set_occ_color, Board.bcolor_set_piece_bb]

theorem Board.get_set_piece_board (b : Board) (p : Piece) (m : BitBoard)
    (q : Piece) :
    (b.set_piece_board p m).get_piece_board q =
      if q = p then b.get_piece_board p ||| m else b.get_piece_board q := by
  simp only [Board.set_piece_board, Board.get_upd_occupied,
    Board.get_set_occ_color, Board.get_set_piece_bb]

theorem Board.occ_color_set_piece_board (b : Board) (p : Piece) (m : BitBoard)
    (c : Color) :
    (b.set_piece_board p m).occupied_color c =
      if c = p.color then b.occupied_color c ||| m else b.occupied_color c := by
  simp only [Board.set_piece_board, Board.occ_color_upd_occupied,
    Board.occ_color_set_occ_color, Board.occ_color_set_piece_bb]
  split <;> rename_i hc
  · rw [hc]
  · rfl

theorem Board.occupied_set_piece_board (b : Board) (p : Piece) (m : BitBoard) :
    (b.set_piece_board p m).occupied = b.occupied ||| m := by
  simp only [Board.set_piece_board, Board.occupied_set_occ_color,
    Board.occupied_set_piece_bb]

theorem Board.wcolor_set_piece_board (b : Board) (p : Piece) (m : BitBoard) :
    (b.set_piece_board p m).white_pieces.color = b.white_pieces.color := by
  simp only [Board.set_piece_board]
  rw [show ∀ b2 : Board, ({ b2 with occupied := b2.occupied ||| m } :
    Board).white_pieces.color = b2.white_pieces.color from fun _ => rfl]
  rw [Board.wcolor_set_occ_color, Board.wcolor_set_piece_bb]

theorem Board.bcolor_set_piece_board (b : Board) (p : Piece) (m : BitBoard) :
    (b.set_piece_board p m).black_pieces.color = b.black_pieces.color := by
  simp only [Board.set_piece_board]
  rw [show ∀ b2 : Board, ({ b2 with occupied := b2.occupied ||| m } :
    Board).black_pieces.color = b2.black_pieces.color from fun _ => rfl]
  rw [Board.bcolor_set_occ_color, Board.bcolor_set_piece_bb]

theorem Board.clear_sq_some (b : Board) (sq : Square) (p : Piece)
    (h : b.mailbox sq = some p) :
    b.clear_sq sq =
      (some p, Board.clear_piece_board
        { b with mailbox := Function.update b.mailbox sq none } p
        (BitBoard.from_square sq)) := by
  simp only [Board.clear_sq, MailBox.clear_sq, h]

theorem Board.set_sq_none (b : Board) (sq : Square) (pc : Piece)
    (h : b.mailbox sq = none) :
    b.set_sq sq pc =
      (none, Board.set_piece_board
        { b with mailbox := Function.update b.mailbox sq (some pc) } pc
        (BitBoard.from_square sq)) := by
  simp only [Board.set_sq, MailBox.set_sq, h]

theorem Board.set_sq_some (b : Board) (sq : Square) (pc : Piece) (c : Piece)
    (h : b.mailbox sq = some c) :
    b.set_sq sq pc =
      (some c, Board.set_piece_board
        (Board.clear_piece_board
          { b with mailbox := Function.update b.mailbox sq (some pc) } c
          (BitBoard.from_square sq)) pc
        (BitBoard.from_square sq)) := by
  simp only [Board.set_sq, MailBox.set_sq, h]

theorem Board.ext_proj (b1 b2 : Board)
    (hwc : b1.white_pieces.color = b2.white_pieces.color)
    (hbc : b1.black_pieces.color = b2.black_pieces.color)
    (hpb : ∀ q : Piece, b1.get_piece_board q = b2.get_piece_board q)
    (hoc : ∀ c : Color, b1.occupied_color c = b2.occupied_color c)
    (ho : b1.occupied = b2.occupied) (hm : b1.mailbox = b2.mailbox) : b1 = b2 := by
  rcases b1 with ⟨⟨wc1, wp1, wr1, wn1, wb1, wq1, wk1, wo1⟩,
    ⟨bc1, bp1, br1, bn1, bb1, bq1, bk1, bo1⟩, o1, m1⟩
  rcases b2 with ⟨⟨wc2, wp2, wr2, wn2, wb2, wq2, wk2, wo2⟩,
    ⟨bc2, bp2, br2, bn2, bb2, bq2, bk2, bo2⟩, o2, m2⟩
  simp only [Board.mk.injEq, PieceSet.mk.injEq]
  exact ⟨⟨hwc, hpb ⟨.White, .Pawn⟩, hpb ⟨.White, .Rook⟩, hpb ⟨.White, .Knight⟩,
      hpb ⟨.White, .Bishop⟩, hpb ⟨.White, .Queen⟩, hpb ⟨.White, .King⟩, hoc .White⟩,
    ⟨hbc, hpb ⟨.Black, .Pawn⟩, hpb ⟨.Black, .Rook⟩, hpb ⟨.Black, .Knight⟩,
      hpb ⟨.Black, .Bishop⟩, hpb ⟨.Black, .Queen⟩, hpb ⟨.Black, .King⟩, hoc .Black⟩,
    ho, hm⟩

end Chess
namespace Chess

theorem Board.wcolor_upd_mailbox (b : Board) (u : MailBox) :
    ({ b with mailbox := u } : Board).white_pieces.color = b.white_pieces.color := rfl

theorem Board.bcolor_upd_mailbox (b : Board) (u : MailBox) :
    ({ b with mailbox := u } : Board).black_pieces.color = b.black_pieces.color := rfl

theorem Board.occupied_upd_mailbox (b : Board) (u : MailBox) :
    ({ b with mailbox := u } : Board).occupied = b.occupied := rfl

theorem Board.mailbox_upd_mailbox (b : Board) (u : MailBox) :
    ({ b with mailbox := u } : Board).mailbox = u := rfl

theorem Board.move_unmove_empty (b : Board) (hw : b.WF) (fr tsq : Square) (p : Piece)
    (hfr : b.mailbox fr = some p) (hft : fr ≠ tsq)
    (hto : b.mailbox tsq = none) :
    (b.move_piece fr tsq).2.unmove_piece fr tsq (b.move_piece fr tsq).1 = b := by
  obtain ⟨hblt, hoclt, holt, hbb, hocb, hob⟩ := hw
  have hPf : (b.get_piece_board p).testBit fr.val = true := (hbb p fr).mpr hfr
  have hPt : (b.get_piece_board p).testBit tsq.val = false := by
    cases hx : (b.get_piece_board p).testBit tsq.val
    · rfl
    · exact absurd ((hbb p tsq).mp hx) (by rw [hto]; simp)
  have hOCf : (b.occupied_color p.color).testBit fr.val = true :=
    (hocb p.color fr).mpr ⟨p.figure, by rw [hfr]⟩
  have hOCt : (b.occupied_color p.color).testBit tsq.val = false := by
    cases hx : (b.occupied_color p.color).testBit tsq.val
    · rfl
    · obtain ⟨f, heq⟩ := (hocb p.color tsq).mp hx
      rw [hto] at heq
      exact absurd heq (by simp)
  have hOf : b.occupied.testBit fr.val = true :=
    (hob fr).mpr (by rw [hfr]; simp)
  have hOt : b.occupied.testBit tsq.val = false := by
    cases hx : b.occupied.testBit tsq.val
    · rfl
    · exact absurd ((hob tsq).mp hx) (by rw [hto]; simp)
  have e1 := Board.clear_sq_some b fr p hfr
  have hB1t : (Board.clear_piece_board
      { b with mailbox := Function.update b.mailbox fr none } p
      (BitBoard.from_square fr)).mailbox tsq = none := by
    rw [Board.mailbox_clear_piece_board, Board.mailbox_upd_mailbox,
      Function.update_noteq (Ne.symm hft)]
    exact hto
  have e2 := Board.set_sq_none _ tsq p hB1t
  have emv : b.move_piece fr tsq =
      (none, Board.set_piece_board
        { (Board.clear_piece_board
            { b with mailbox := Function.update b.mailbox fr none } p
            (BitBoard.from_square fr)) with
          mailbox := Function.update
            (Board.clear_piece_board
              { b with mailbox := Function.update b.mailbox fr none } p
              (BitBoard.from_square fr)).mailbox tsq (some p) } p
        (BitBoard.from_square tsq)) := by
    simp only [Board.move_piece, e1]
    exact e2
  rw [emv]
  simp only [Board.unmove_piece, Board.move_piece]
  have hB2t : (Board.set_piece_board
      { (Board.clear_piece_board
          { b with mailbox := Function.update b.mailbox fr none } p
          (BitBoard.from_square fr)) with
        mailbox := Function.update
          (Board.clear_piece_board
            { b with mailbox := Function.update b.mailbox fr none } p
            (BitBoard.from_square fr)).mailbox tsq (some p) } p
      (BitBoard.from_square tsq)).mailbox tsq = some p := by
    rw [Board.mailbox_set_piece_board, Board.mailbox_upd_mailbox,
      Function.update_same]
  rw [Board.clear_sq_some _ tsq p hB2t]
  simp only []
  have hB3f : (Board.clear_piece_board
      { (Board.set_piece_board
          { (Board.clear_piece_board
              { b with mailbox := Function.update b.mailbox fr none } p
              (BitBoard.from_square fr)) with
            mailbox := Function.update
              (Board.clear_piece_board
                { b with mailbox := Function.update b.mailbox fr none } p
                (BitBoard.from_square fr)).mailbox tsq (some p) } p
          (BitBoard.from_square tsq)) with
        mailbox := Function.update
          (Board.set_piece_board
            { (Board.clear_piece_board
                { b with mailbox := Function.update b.mailbox fr none } p
                (BitBoard.from_square fr)) with
              mailbox := Function.update
                (Board.clear_piece_board
                  { b with mailbox := Function.update b.mailbox fr none } p
                  (BitBoard.from_square fr)).mailbox tsq (some p) } p
            (BitBoard.from_square tsq)).mailbox tsq none } p
      (BitBoard.from_square tsq)).mailbox fr = none := by
    rw [Board.mailbox_clear_piece_board, Board.mailbox_upd_mailbox,
      Function.update_noteq hft, Board.mailbox_set_piece_board,
      Board.mailbox_upd_mailbox, Function.update_noteq hft,
      Board.mailbox_clear_piece_board, Board.mailbox_upd_mailbox,
      Function.update_same]
  rw [Board.set_sq_none _ fr p hB3f]
  simp only []
  apply Board.ext_proj
  · simp only [Board.wcolor_set_piece_board, Board.wcolor_clear_piece_board,
      Board.wcolor_upd_mailbox]
  · simp only [Board.bcolor_set_piece_board, Board.bcolor_clear_piece_board,
      Board.bcolor_upd_mailbox]
  · intro q
    simp only [Board.get_set_piece_board, Board.get_clear_piece_board,
      Board.get_upd_mailbox, eq_self_iff_true, if_true]
    by_cases hq : q = p
    · subst hq
      simp only [eq_self_iff_true, if_true]
      exact restoreA _ fr tsq (hblt q) hPf hPt
    · simp only [hq, if_false]
  · intro c
    simp only [Board.occ_color_set_piece_board, Board.occ_color_clear_piece_board,
      Board.occ_color_upd_mailbox, eq_self_iff_true, if_true]
    by_cases hc : c = p.color
    · subst hc
      simp only [eq_self_iff_true, if_true]
      exact restoreA _ fr tsq (hoclt p.color) hOCf hOCt
    · simp only [hc, if_false]
  · simp only [Board.occupied_set_piece_board, Board.occupied_clear_piece_board,
      Board.occupied_upd_mailbox]
    exact restoreA _ fr tsq holt hOf hOt
  · simp only [Board.mailbox_set_piece_board, Board.mailbox_clear_piece_board,
      Board.mailbox_upd_mailbox]
    funext x
    by_cases hxf : x = fr
    · subst hxf
      simp [Function.update_same, Function.update_noteq, hfr]
    · by_cases hxt : x = tsq
      · subst hxt
        rw [Function.update_noteq (Ne.symm hft), Function.update_same, hto]
      · rw [Function.update_noteq hxf, Function.update_noteq hxt,
          Function.update_noteq hxt, Function.update_noteq hxf]

end Chess

namespace Chess

theorem Board.move_unmove_capture (b : Board) (hw : Board.WF b) (fr tsq : Square) (p : Piece)
    (hfr : b.mailbox fr = some p) (hft : fr ≠ tsq) (c : Piece)
    (hto : b.mailbox tsq = some c) :
    (b.move_piece fr tsq).2.unmove_piece fr tsq (b.move_piece fr tsq).1 = b := by
  obtain ⟨hblt, hoclt, holt, hbb, hocb, hob⟩ := hw
  have hPf : (b.get_piece_board p).testBit fr.val = true := (hbb p fr).mpr hfr
  have hXct : (b.get_piece_board c).testBit tsq.val = true := (hbb c tsq).mpr hto
  have hOCf : (b.occupied_color p.color).testBit fr.val = true :=
    (hocb p.color fr).mpr ⟨p.figure, by rw [hfr]⟩
  have hOCct : (b.occupied_color c.color).testBit tsq.val = true :=
    (hocb c.color tsq).mpr ⟨c.figure, by rw [hto]⟩
  have hOf : b.occupied.testBit fr.val = true := (hob fr).mpr (by rw [hfr]; simp)
  have hOt : b.occupied.testBit tsq.val = true := (hob tsq).mpr (by rw [hto]; simp)
  have e1 := Board.clear_sq_some b fr p hfr
  have hB1t : (Board.clear_piece_board
      { b with mailbox := Function.update b.mailbox fr none } p
      (BitBoard.from_square fr)).mailbox tsq = some c := by
    rw [Board.mailbox_clear_piece_board, Board.mailbox_upd_mailbox,
      Function.update_noteq (Ne.symm hft)]
    exact hto
  have e2 := Board.set_sq_some _ tsq p c hB1t
  have emv : b.move_piece fr tsq = (some c, (Board.set_piece_board
      (Board.clear_piece_board
        { (Board.clear_piece_board
      { b with mailbox := Function.update b.mailbox fr none } p
      (BitBoard.from_square fr)) with mailbox := Function.update (Board.clear_piece_board
      { b with mailbox := Function.update b.mailbox fr none } p
      (BitBoard.from_square fr)).mailbox tsq (some p) } c
        (BitBoard.from_square tsq)) p
      (BitBoard.from_square tsq))) := by
    simp only [Board.move_piece, e1]
    exact e2
  rw [emv]
  simp only [Board.unmove_piece, Board.move_piece]
  have hB2t : (Board.set_piece_board
      (Board.clear_piece_board
        { (Board.clear_piece_board
      { b with mailbox := Function.update b.mailbox fr none } p
      (BitBoard.from_square fr)) with mailbox := Function.update (Board.clear_piece_board
      { b with mailbox := Function.update b.mailbox fr none } p
      (BitBoard.from_square fr)).mailbox tsq (some p) } c
        (BitBoard.from_square tsq)) p
      (BitBoard.from_square tsq)).mailbox tsq = some p := by
    rw [Board.mailbox_set_piece_board, Board.mailbox_clear_piece_board,
      Board.mailbox_upd_mailbox, Function.update_same]
  rw [Board.clear_sq_some _ tsq p hB2t]
  simp only []
  have hB3f : (Board.clear_piece_board
      { (Board.set_piece_board
      (Board.clear_piece_board
        { (Board.clear_piece_board
      { b with mailbox := Function.update b.mailbox fr none } p
      (BitBoard.from_square fr)) with mailbox := Function.update (Board.clear_piece_board
      { b with mailbox := Function.update b.mailbox fr none } p
      (BitBoard.from_square fr)).mailbox tsq (some p) } c
        (BitBoard.from_square tsq)) p
      (BitBoard.from_square tsq)) with mailbox := Function.update (Board.set_piece_board
      (Board.clear_piece_board
        { (Board.clear_piece_board
      { b with mailbox := Function.update b.mailbox fr none } p
      (BitBoard.from_square fr)) with mailbox := Function.update (Board.clear_piece_board
      { b with mailbox := Function.update b.mailbox fr none } p
      (BitBoard.from_square fr)).mailbox tsq (some p) } c
        (BitBoard.from_square tsq)) p
      (BitBoard.from_square tsq)).mailbox tsq none } p
      (BitBoard.from_square tsq)).mailbox fr = none := by
    rw [Board.mailbox_clear_piece_board, Board.mailbox_upd_mailbox,
      Function.update_noteq hft, Board.mailbox_set_piece_board,
      Board.mailbox_clear_piece_board, Board.mailbox_upd_mailbox,
      Function.update_noteq hft, Board.mailbox_clear_piece_board,
      Board.mailbox_upd_mailbox, Function.update_same]
  rw [Board.set_sq_none _ fr p hB3f]
  simp only []
  have hB4t : (Board.set_piece_board
      { (Board.clear_piece_board
      { (Board.set_piece_board
      (Board.clear_piece_board
        { (Board.clear_piece_board
      { b with mailbox := Function.update b.mailbox fr none } p
      (BitBoard.from_square fr)) with mailbox := Function.update (Board.clear_piece_board
      { b with mailbox := Function.update b.mailbox fr none } p
      (BitBoard.from_square fr)).mailbox tsq (some p) } c
        (BitBoard.from_square tsq)) p
      (BitBoard.from_square tsq)) with mailbox := Function.update (Board.set_piece_board
      (Board.clear_piece_board
        { (Board.clear_piece_board
      { b with mailbox := Function.update b.mailbox fr none } p
      (BitBoard.from_square fr)) with mailbox := Function.update (Board.clear_piece_board
      { b with mailbox := Function.update b.mailbox fr none } p
      (BitBoard.from_square fr)).mailbox tsq (some p) } c
        (BitBoard.from_square tsq)) p
      (BitBoard.from_square tsq)).mailbox tsq none } p
      (BitBoard.from_square tsq)) with mailbox := Function.update (Board.clear_piece_board
      { (Board.set_piece_board
      (Board.clear_piece_board
        { (Board.clear_piece_board
      { b with mailbox := Function.update b.mailbox fr none } p
      (BitBoard.from_square fr)) with mailbox := Function.update (Board.clear_piece_board
      { b with mailbox := Function.update b.mailbox fr none } p
      (BitBoard.from_square fr)).mailbox tsq (some p) } c
        (BitBoard.from_square tsq)) p
      (BitBoard.from_square tsq)) with mailbox := Function.update (Board.set_piece_board
      (Board.clear_piece_board
        { (Board.clear_piece_board
      { b with mailbox := Function.update b.mailbox fr none } p
      (BitBoard.from_square fr)) with mailbox := Function.update (Board.clear_piece_board
      { b with mailbox := Function.update b.mailbox fr none } p
      (BitBoard.from_square fr)).mailbox tsq (some p) } c
        (BitBoard.from_square tsq)) p
      (BitBoard.from_square tsq)).mailbox tsq none } p
      (BitBoard.from_square tsq)).mailbox fr (some p) } p
      (BitBoard.from_square fr)).mailbox tsq = none := by
    rw [Board.mailbox_set_piece_board, Board.mailbox_upd_mailbox,
      Function.update_noteq (Ne.symm hft), Board.mailbox_clear_piece_board,
      Board.mailbox_upd_mailbox, Function.update_same]
  rw [Board.set_sq_none _ tsq c hB4t]
  simp only []
  apply Board.ext_proj
  · simp only [Board.wcolor_set_piece_board, Board.wcolor_clear_piece_board,
      Board.wcolor_upd_mailbox]
  · simp only [Board.bcolor_set_piece_board, Board.bcolor_clear_piece_board,
      Board.bcolor_upd_mailbox]
  · intro q
    simp only [Board.get_set_piece_board, Board.get_clear_piece_board,
      Board.get_upd_mailbox, eq_self_iff_true, if_true]
    by_cases hq : q = p
    · by_cases hqc : q = c
      · have hcp : c = p := by rw [← hqc, hq]
        subst hq
        rw [hcp] at hXct ⊢
        simp only [eq_self_iff_true, if_true, hcp]
        exact restoreC _ fr tsq (hblt q) hPf hXct
      · have hpc : ¬(p = c) := by rw [← hq]; exact hqc
        have hPt : (b.get_piece_board p).testBit tsq.val = false := by
          cases hx : (b.get_piece_board p).testBit tsq.val
          · rfl
          · have := (hbb p tsq).mp hx
            rw [hto] at this
            exact absurd (Option.some.inj this).symm hpc
        subst hq
        simp only [hqc, if_false, eq_self_iff_true, if_true]
        exact restoreA _ fr tsq (hblt q) hPf hPt
    · by_cases hqc : q = c
      · subst hqc
        have hcp : ¬(q = p) := hq
        simp only [hcp, if_false, eq_self_iff_true, if_true]
        exact restoreB _ tsq (hblt q) hXct
      · simp only [hq, hqc, if_false]
  · intro d
    simp only [Board.occ_color_set_piece_board, Board.occ_color_clear_piece_board,
      Board.occ_color_upd_mailbox, eq_self_iff_true, if_true]
    by_cases hd1 : d = p.color
    · by_cases hd2 : d = c.color
      · have hpc : p.color = c.color := by rw [← hd1, hd2]
        have hOCt : (b.occupied_color p.color).testBit tsq.val = true := by
          rw [hpc]
          exact hOCct
        subst hd1
        simp only [hd2, eq_self_iff_true, if_true]
        exact restoreC _ fr tsq (hoclt c.color) (by rw [← hpc]; exact hOCf)
          (by rw [← hpc]; exact hOCt)
      · have hOCt : (b.occupied_color p.color).testBit tsq.val = false := by
        -- tsq holds c of a different color
          cases hx : (b.occupied_color p.color).testBit tsq.val
          · rfl
          · obtain ⟨f, heq⟩ := (hocb p.color tsq).mp hx
            rw [hto] at heq
            have : c.color = p.color := by rw [Option.some.inj heq]
            rw [← hd1] at this
            exact absurd this.symm hd2
        subst hd1
        simp only [hd2, if_false, eq_self_iff_true, if_true]
        exact restoreA _ fr tsq (hoclt p.color) hOCf hOCt
    · by_cases hd2 : d = c.color
      · subst hd2
        simp only [hd1, if_false, eq_self_iff_true, if_true]
        exact restoreB _ tsq (hoclt c.color) hOCct
      · simp only [hd1, hd2, if_false]
  · simp only [Board.occupied_set_piece_board, Board.occupied_clear_piece_board,
      Board.occupied_upd_mailbox]
    exact restoreC _ fr tsq holt hOf hOt
  · simp only [Board.mailbox_set_piece_board, Board.mailbox_clear_piece_board,
      Board.mailbox_upd_mailbox]
    funext x
    by_cases hxf : x = fr
    · subst hxf
      rw [Function.update_noteq hft, Function.update_same, hfr]
    · by_cases hxt : x = tsq
      · subst hxt
        rw [Function.update_same, hto]
      · rw [Function.update_noteq hxt, Function.update_noteq hxf,
          Function.update_noteq hxt, Function.update_noteq hxt,
          Function.update_noteq hxf]

end Chess

namespace Chess

theorem Board.move_unmove_self (b : Board) (hw : Board.WF b) (s : Square) (p : Piece)
    (hfr : b.mailbox s = some p) :
    (b.move_piece s s).2.unmove_piece s s (b.move_piece s s).1 = b := by
  obtain ⟨hblt, hoclt, holt, hbb, hocb, hob⟩ := hw
  have hPf : (b.get_piece_board p).testBit s.val = true := (hbb p s).mpr hfr
  have hOCf : (b.occupied_color p.color).testBit s.val = true :=
    (hocb p.color s).mpr ⟨p.figure, by rw [hfr]⟩
  have hOf : b.occupied.testBit s.val = true := (hob s).mpr (by rw [hfr]; simp)
  have e1 := Board.clear_sq_some b s p hfr
  have hB1s : (Board.clear_piece_board
      { b with mailbox := Function.update b.mailbox s none } p
      (BitBoard.from_square s)).mailbox s = none := by
    rw [Board.mailbox_clear_piece_board, Board.mailbox_upd_mailbox,
      Function.update_same]
  have e2 := Board.set_sq_none _ s p hB1s
  have hmv : b.move_piece s s = (none, b) := by
    simp only [Board.move_piece, e1]
    rw [e2]
    refine congrArg _ (Board.ext_proj _ _ ?_ ?_ ?_ ?_ ?_ ?_)
    · simp only [Board.wcolor_set_piece_board, Board.wcolor_clear_piece_board,
        Board.wcolor_upd_mailbox]
    · simp only [Board.bcolor_set_piece_board, Board.bcolor_clear_piece_board,
        Board.bcolor_upd_mailbox]
    · intro q
      simp only [Board.get_set_piece_board, Board.get_clear_piece_board,
        Board.get_upd_mailbox, eq_self_iff_true, if_true]
      by_cases hq : q = p
      · subst hq
        simp only [eq_self_iff_true, if_true]
        exact restoreB _ s (hblt q) hPf
      · simp only [hq, if_false]
    · intro d
      simp only [Board.occ_color_set_piece_board, Board.occ_color_clear_piece_board,
        Board.occ_color_upd_mailbox, eq_self_iff_true, if_true]
      by_cases hd : d = p.color
      · subst hd
        simp only [eq_self_iff_true, if_true]
        exact restoreB _ s (hoclt p.color) hOCf
      · simp only [hd, if_false]
    · simp only [Board.occupied_set_piece_board, Board.occupied_clear_piece_board,
        Board.occupied_upd_mailbox]
      exact restoreB _ s holt hOf
    · simp only [Board.mailbox_set_piece_board, Board.mailbox_clear_piece_board,
        Board.mailbox_upd_mailbox]
      rw [Function.update_idem, ← hfr]
      exact Function.update_eq_self s b.mailbox
  rw [hmv]
  simp only [Board.unmove_piece]
  rw [hmv]

end Chess

namespace Chess

/-- C9: for every well-formed board with a piece on `from`, applying
`move_piece(from, to)` and then `unmove_piece(from, to, captured)` with the
returned capture restores the board exactly — every piece bitboard, both
color-occupancy boards, the global occupancy and every mailbox entry. -/
theorem C9_move_unmove_restores (b : Board) (hw : Board.WF b) (fr tsq : Square)
    (p : Piece) (hfr : b.get_sq fr = some p) :
    (b.move_piece fr tsq).2.unmove_piece fr tsq (b.move_piece fr tsq).1 = b := by
  have hfr2 : b.mailbox fr = some p := hfr
  by_cases hft : fr = tsq
  · subst hft
    exact Board.move_unmove_self b hw fr p hfr2
  · rcases hto : b.mailbox tsq with _ | c
    · exact Board.move_unmove_empty b hw fr tsq p hfr2 hft hto
    · exact Board.move_unmove_capture b hw fr tsq p hfr2 hft c hto

/-- C9 (witness): a concrete two-piece board (white pawn e2, black rook e4) is
well-formed, and the capture move e2-e4 followed by its unmove restores it. -/
theorem C9_witness :
    Board.WF ((Board.new.set_sq sqE2 WHITE_PAWN).2.set_sq sqE4 BLACK_ROOK).2 ∧
    (((Board.new.set_sq sqE2 WHITE_PAWN).2.set_sq sqE4
        BLACK_ROOK).2.move_piece sqE2 sqE4).2.unmove_piece sqE2 sqE4
      (((Board.new.set_sq sqE2 WHITE_PAWN).2.set_sq sqE4
          BLACK_ROOK).2.move_piece sqE2 sqE4).1 =
      ((Board.new.set_sq sqE2 WHITE_PAWN).2.set_sq sqE4 BLACK_ROOK).2 :=
  ⟨by decide,
    C9_move_unmove_restores _ (by decide) sqE2 sqE4 WHITE_PAWN (by decide)⟩

end Chess
